import Mathlib

/-!
Verification development for the continuous-distribution evaluation core of
the statrs repository (the `Beta` and `Triangular` distributions).

Floating-point values are shallowly embedded as exact extended rationals with
an explicit NaN: the embedding keeps the IEEE-754 special-value algebra
(NaN propagation, signed infinities, `0/0 = NaN`, incomparability of NaN)
while idealizing finite arithmetic as exact rational arithmetic.  The external
special-function collaborator (gamma, log-gamma, exp, ln, powf, regularized
incomplete beta) is a record of opaque-to-the-code pure functions, exactly as
the spec's section 6 describes it.
-/

/-- Shallow embedding of an `f64` value: NaN, the two infinities, or a finite
value idealized as an exact rational (rounding and overflow of finite
arithmetic are outside the claims under verification; the special-value
algebra is preserved exactly). -/
inductive F where
  | nan : F
  | pinf : F
  | ninf : F
  | fin : ℚ → F
deriving DecidableEq, Repr

namespace F

/-- Embedding of Rust `f64::is_nan`. -/
def isNaN : F → Bool
  | nan => true
  | _ => false

/-- Embedding of Rust `f64::is_infinite` (false on NaN and finite values). -/
def isInfinite : F → Bool
  | pinf => true
  | ninf => true
  | _ => false

/-- Embedding of Rust `f64::is_finite`. -/
def isFinite : F → Bool
  | fin _ => true
  | _ => false

/-- Embedding of the IEEE `<` comparison: false whenever either side is NaN. -/
def lt : F → F → Bool
  | nan, _ => false
  | _, nan => false
  | ninf, ninf => false
  | ninf, _ => true
  | _, ninf => false
  | pinf, _ => false
  | fin _, pinf => true
  | fin q, fin r => decide (q < r)

/-- Embedding of the IEEE `<=` comparison: false whenever either side is NaN. -/
def le : F → F → Bool
  | nan, _ => false
  | _, nan => false
  | ninf, _ => true
  | _, ninf => false
  | pinf, pinf => true
  | pinf, fin _ => false
  | fin _, pinf => true
  | fin q, fin r => decide (q ≤ r)

/-- Embedding of the IEEE `==` comparison: false whenever either side is NaN. -/
def beq : F → F → Bool
  | nan, _ => false
  | _, nan => false
  | pinf, pinf => true
  | ninf, ninf => true
  | fin q, fin r => decide (q = r)
  | _, _ => false

/-- Embedding of IEEE negation. -/
def neg : F → F
  | nan => nan
  | pinf => ninf
  | ninf => pinf
  | fin q => fin (-q)

/-- Embedding of IEEE addition: NaN propagates, opposite infinities give NaN,
finite addition is idealized as exact. -/
def add : F → F → F
  | nan, _ => nan
  | _, nan => nan
  | pinf, ninf => nan
  | ninf, pinf => nan
  | pinf, _ => pinf
  | _, pinf => pinf
  | ninf, _ => ninf
  | _, ninf => ninf
  | fin q, fin r => fin (q + r)

/-- Embedding of IEEE subtraction as addition of the negation. -/
def sub (a b : F) : F := add a (neg b)

/-- Embedding of IEEE multiplication: NaN propagates, `0 * ±∞ = NaN`, signed
infinity rules, finite multiplication idealized as exact. -/
def mul : F → F → F
  | nan, _ => nan
  | _, nan => nan
  | pinf, pinf => pinf
  | pinf, ninf => ninf
  | ninf, pinf => ninf
  | ninf, ninf => pinf
  | pinf, fin q => if 0 < q then pinf else if q < 0 then ninf else nan
  | fin q, pinf => if 0 < q then pinf else if q < 0 then ninf else nan
  | ninf, fin q => if 0 < q then ninf else if q < 0 then pinf else nan
  | fin q, ninf => if 0 < q then ninf else if q < 0 then pinf else nan
  | fin q, fin r => fin (q * r)

/-- Embedding of IEEE division: NaN propagates, `∞/∞ = NaN`, `0/0 = NaN`,
`finite/±∞ = 0`, nonzero finite over zero gives a signed infinity (the sign of
zero itself is not modelled), finite division idealized as exact. -/
def div : F → F → F
  | nan, _ => nan
  | _, nan => nan
  | pinf, pinf => nan
  | pinf, ninf => nan
  | ninf, pinf => nan
  | ninf, ninf => nan
  | pinf, fin q => if q < 0 then ninf else pinf
  | ninf, fin q => if q < 0 then pinf else ninf
  | fin _, pinf => fin 0
  | fin _, ninf => fin 0
  | fin q, fin r =>
      if r = 0 then (if q = 0 then nan else if 0 < q then pinf else ninf)
      else fin (q / r)

end F

/-- Modelled from the spec: the fixed tolerance of the near-equality helper
(the design notes prescribe "a tolerance-based floating-point comparison
(relative ULP or epsilon-based), never exact equality", with one fixed
tolerance policy).  The policy chosen here is the absolute-epsilon policy with
`f64::EPSILON = 2⁻⁵²`, the default epsilon of the `ulps_eq!` comparison used
by the source. -/
def nearTol : ℚ := 1 / 2 ^ 52

/-- Modelled from the spec: the near-equality comparison `ulps_eq!` used by
the source for degenerate-parameter and boundary detection (the comparison
itself is external to the included source files).  Two finite values are
near-equal when they differ by at most `nearTol`; equal infinities are
near-equal; NaN is near-equal to nothing. -/
def ulpsEq : F → F → Bool
  | F.fin q, F.fin r => decide (|q - r| ≤ nearTol)
  | F.pinf, F.pinf => true
  | F.ninf, F.ninf => true
  | _, _ => false

/-- Modelled from the spec: the shared zero-test helper `is_zero` (listed by
the spec among the "shared numeric helpers (near-equality comparison, zero
test)" but not included under the provided sources), modelled as near-equality
to zero. -/
def is_zero (x : F) : Bool := ulpsEq x (F.fin 0)

/-- The external special-function collaborator of spec section 6, plus the
elementary `exp`/`ln`/`powf` maps of the standard library that the source
calls: a record of pure functions consumed (never defined) by the
distribution core. -/
structure SpecialFns where
  exp : F → F
  ln : F → F
  gamma : F → F
  ln_gamma : F → F
  powf : F → F → F
  beta_reg : F → F → F → F

/-- The immutable two-shape-parameter bundle of `Beta`. -/
structure Beta where
  shape_a : F
  shape_b : F
deriving DecidableEq, Repr

/-- Embedding of `Beta::new`: NaN shapes are rejected, then non-positive
shapes are rejected, otherwise the value holding exactly the given parameters
is produced. -/
def Beta.new (shape_a shape_b : F) : Option Beta :=
  if shape_a.isNaN || shape_b.isNaN then none
  else if F.le shape_a (F.fin 0) || F.le shape_b (F.fin 0) then none
  else some ⟨shape_a, shape_b⟩

/-- A `Beta` value is valid when the validating factory produces exactly it. -/
def Beta.valid (β : Beta) : Prop := Beta.new β.shape_a β.shape_b = some β

/-- Embedding of `Beta::cdf`: domain clamping, then the three
infinite-parameter regimes, then the uniform regime, then the regularized
incomplete beta function. -/
def Beta.cdf (S : SpecialFns) (β : Beta) (x : F) : F :=
  if F.lt x (F.fin 0) then F.fin 0
  else if F.le (F.fin 1) x then F.fin 1
  else if β.shape_a.isInfinite && β.shape_b.isInfinite then
    (if F.lt x (F.fin (1 / 2)) then F.fin 0 else F.fin 1)
  else if β.shape_a.isInfinite then
    (if F.lt x (F.fin 1) then F.fin 0 else F.fin 1)
  else if β.shape_b.isInfinite then F.fin 1
  else if ulpsEq β.shape_a (F.fin 1) && ulpsEq β.shape_b (F.fin 1) then x
  else S.beta_reg β.shape_a β.shape_b x

/-- Embedding of `Beta::mode`: an empty result when a shape is at most one or
both shapes are infinite, the upper endpoint when only `shape_a` is infinite,
and the closed formula `(α - 1) / (α + β - 2)` in all remaining cases. -/
def Beta.mode (β : Beta) : Option F :=
  if F.le β.shape_a (F.fin 1) || F.le β.shape_b (F.fin 1) ||
      (β.shape_a.isInfinite && β.shape_b.isInfinite) then none
  else if β.shape_a.isInfinite then some (F.fin 1)
  else some (F.div (F.sub β.shape_a (F.fin 1))
      (F.sub (F.add β.shape_a β.shape_b) (F.fin 2)))

/-- Embedding of the log-gamma normalizer `aa` of `Beta::ln_pdf`:
`ln_gamma(α+β) - ln_gamma(α) - ln_gamma(β)`. -/
def Beta.lnNorm (S : SpecialFns) (β : Beta) : F :=
  F.sub (F.sub (S.ln_gamma (F.add β.shape_a β.shape_b))
      (S.ln_gamma β.shape_a))
    (S.ln_gamma β.shape_b)

/-- Embedding of the lower power term `bb` of the general case of
`Beta::ln_pdf`. -/
def Beta.lnLowTerm (S : SpecialFns) (β : Beta) (x : F) : F :=
  if ulpsEq β.shape_a (F.fin 1) && is_zero x then F.fin 0
  else if is_zero x then F.ninf
  else F.mul (F.sub β.shape_a (F.fin 1)) (S.ln x)

/-- Embedding of the upper power term `cc` of the general case of
`Beta::ln_pdf`. -/
def Beta.lnHighTerm (S : SpecialFns) (β : Beta) (x : F) : F :=
  if ulpsEq β.shape_b (F.fin 1) && ulpsEq x (F.fin 1) then F.fin 0
  else if ulpsEq x (F.fin 1) then F.ninf
  else F.mul (F.sub β.shape_b (F.fin 1)) (S.ln (F.sub (F.fin 1) x))

/-- Embedding of `Beta::ln_pdf`: domain clamping to `-∞`, the three
infinite-parameter regimes, the uniform regime, then the general case
`aa + bb + cc` built from the log-gamma normalizer and the two
boundary-special-cased power terms. -/
def Beta.ln_pdf (S : SpecialFns) (β : Beta) (x : F) : F :=
  if F.lt x (F.fin 0) || F.lt (F.fin 1) x then F.ninf
  else if β.shape_a.isInfinite && β.shape_b.isInfinite then
    (if ulpsEq x (F.fin (1 / 2)) then F.pinf else F.ninf)
  else if β.shape_a.isInfinite then
    (if ulpsEq x (F.fin 1) then F.pinf else F.ninf)
  else if β.shape_b.isInfinite then
    (if is_zero x then F.pinf else F.ninf)
  else if ulpsEq β.shape_a (F.fin 1) && ulpsEq β.shape_b (F.fin 1) then F.fin 0
  else
    F.add (F.add (Beta.lnNorm S β) (Beta.lnLowTerm S β x))
      (Beta.lnHighTerm S β x)

/-- Embedding of `Beta::pdf`: domain clamping to `0`, the three
infinite-parameter regimes, the uniform regime, the log-space path when a
shape exceeds the stability threshold `80`, then the direct
gamma-ratio-times-power-terms formula. -/
def Beta.pdf (S : SpecialFns) (β : Beta) (x : F) : F :=
  if F.lt x (F.fin 0) || F.lt (F.fin 1) x then F.fin 0
  else if β.shape_a.isInfinite && β.shape_b.isInfinite then
    (if ulpsEq x (F.fin (1 / 2)) then F.pinf else F.fin 0)
  else if β.shape_a.isInfinite then
    (if ulpsEq x (F.fin 1) then F.pinf else F.fin 0)
  else if β.shape_b.isInfinite then
    (if is_zero x then F.pinf else F.fin 0)
  else if ulpsEq β.shape_a (F.fin 1) && ulpsEq β.shape_b (F.fin 1) then F.fin 1
  else if F.lt (F.fin 80) β.shape_a || F.lt (F.fin 80) β.shape_b then
    S.exp (Beta.ln_pdf S β x)
  else
    F.mul
      (F.mul
        (F.div (S.gamma (F.add β.shape_a β.shape_b))
          (F.mul (S.gamma β.shape_a) (S.gamma β.shape_b)))
        (S.powf x (F.sub β.shape_a (F.fin 1))))
      (S.powf (F.sub (F.fin 1) x) (F.sub β.shape_b (F.fin 1)))

/-- The immutable bounded-triple parameter bundle of `Triangular`. -/
structure Triangular where
  min : F
  max : F
  mode : F
deriving DecidableEq, Repr

/-- Embedding of `Triangular::new`: infinite arguments are rejected, then NaN
arguments, then a triple with `max < mode` or `mode < min`, then `max == min`;
otherwise the value holding exactly the given parameters is produced. -/
def Triangular.new (min max mode : F) : Option Triangular :=
  if min.isInfinite || max.isInfinite || mode.isInfinite then none
  else if min.isNaN || max.isNaN || mode.isNaN then none
  else if F.lt max mode || F.lt mode min then none
  else if F.beq max min then none
  else some ⟨min, max, mode⟩

/-- A `Triangular` value is valid when the validating factory produces
exactly it. -/
def Triangular.valid (t : Triangular) : Prop :=
  Triangular.new t.min t.max t.mode = some t

instance Beta.validDec (β : Beta) : Decidable (Beta.valid β) := by
  unfold Beta.valid
  infer_instance

instance Triangular.validDec (t : Triangular) :
    Decidable (Triangular.valid t) := by
  unfold Triangular.valid
  infer_instance

/-- Embedding of the rising quadratic piece of `Triangular::cdf`:
`(x - a)² / ((b - a)(c - a))`. -/
def Triangular.cdfLow (t : Triangular) (x : F) : F :=
  F.div (F.mul (F.sub x t.min) (F.sub x t.min))
    (F.mul (F.sub t.max t.min) (F.sub t.mode t.min))

/-- Embedding of the falling quadratic piece of `Triangular::cdf`:
`1 - (b - x)² / ((b - a)(b - c))`. -/
def Triangular.cdfHigh (t : Triangular) (x : F) : F :=
  F.sub (F.fin 1)
    (F.div (F.mul (F.sub t.max x) (F.sub t.max x))
      (F.mul (F.sub t.max t.min) (F.sub t.max t.mode)))

/-- Embedding of `Triangular::cdf`.  The source wraps every branch's value in
`Ok`, so the error variant is unreachable and the embedding returns the
payload directly. -/
def Triangular.cdf (t : Triangular) (x : F) : F :=
  if F.lt x t.min then F.fin 0
  else if F.le t.min x && F.le x t.mode then Triangular.cdfLow t x
  else if F.lt t.mode x && F.le x t.max then Triangular.cdfHigh t x
  else F.fin 1

/-- Embedding of `Triangular::pdf`: the rising linear piece on
`[min, mode]`, the falling linear piece on `(mode, max]`, and zero outside
the support. -/
def Triangular.pdf (t : Triangular) (x : F) : F :=
  if F.le t.min x && F.le x t.mode then
    F.div (F.mul (F.fin 2) (F.sub x t.min))
      (F.mul (F.sub t.max t.min) (F.sub t.mode t.min))
  else if F.lt t.mode x && F.le x t.max then
    F.div (F.mul (F.fin 2) (F.sub t.max x))
      (F.mul (F.sub t.max t.min) (F.sub t.max t.mode))
  else F.fin 0

/-- Embedding of `Triangular::ln_pdf`: literally `self.pdf(x).ln()`. -/
def Triangular.ln_pdf (S : SpecialFns) (t : Triangular) (x : F) : F :=
  S.ln (Triangular.pdf t x)

/-- A concrete instantiation of the special-function collaborator, used to
evaluate the branch structure of the distribution core at concrete inputs. -/
def Sone : SpecialFns where
  exp := fun _ => F.fin 1
  ln := fun _ => F.fin 0
  gamma := fun _ => F.fin 1
  ln_gamma := fun _ => F.fin 0
  powf := fun _ _ => F.fin 1
  beta_reg := fun _ _ _ => F.fin 0

/-- Idealized well-behavedness of the special-function collaborator, as spec
section 6 describes it ("pure functions, domain restricted to valid inputs by
the caller"): the gamma function is finite and positive on finite positive
inputs, log-gamma is finite there, `x^y` for a base in `[0, 1]` is
non-negative and degenerates to `0` or `+∞` only when the base is below one
half, `exp` and the regularized incomplete beta never produce NaN from
non-NaN inputs, and `ln` is finite on positive inputs and non-NaN at zero. -/
structure Benign (S : SpecialFns) : Prop where
  gamma_pos : ∀ z : F, z.isFinite = true → F.lt (F.fin 0) z = true →
    (S.gamma z).isFinite = true ∧ F.lt (F.fin 0) (S.gamma z) = true
  ln_gamma_fin : ∀ z : F, z.isFinite = true → F.lt (F.fin 0) z = true →
    (S.ln_gamma z).isFinite = true
  powf_ok : ∀ x y : F, x.isFinite = true → y.isFinite = true →
    F.le (F.fin 0) x = true → F.le x (F.fin 1) = true →
    F.le (F.fin 0) (S.powf x y) = true ∧
      ((S.powf x y = F.fin 0 ∨ S.powf x y = F.pinf) →
        F.lt x (F.fin (1 / 2)) = true)
  exp_not_nan : ∀ u : F, u.isNaN = false → (S.exp u).isNaN = false
  ln_fin : ∀ y : F, y.isFinite = true → F.lt (F.fin 0) y = true →
    (S.ln y).isFinite = true
  ln_zero_not_nan : (S.ln (F.fin 0)).isNaN = false
  beta_reg_not_nan : ∀ a b x : F, (S.beta_reg a b x).isNaN = false

/-- Hypothesis on the collaborator: the regularized incomplete beta function
is bounded in `[0, 1]` on the interior inputs the cdf hands it. -/
def BetaRegBounded (S : SpecialFns) (β : Beta) : Prop :=
  ∀ y : F, F.le (F.fin 0) y = true → F.lt y (F.fin 1) = true →
    F.le (F.fin 0) (S.beta_reg β.shape_a β.shape_b y) = true ∧
      F.le (S.beta_reg β.shape_a β.shape_b y) (F.fin 1) = true

/-- Hypothesis on the collaborator: the regularized incomplete beta function
is non-decreasing in its integration limit on the interior inputs. -/
def BetaRegMonotone (S : SpecialFns) (β : Beta) : Prop :=
  ∀ y z : F, F.le (F.fin 0) y = true → F.le y z = true →
    F.lt z (F.fin 1) = true →
    F.le (S.beta_reg β.shape_a β.shape_b y)
      (S.beta_reg β.shape_a β.shape_b z) = true

/-- A concrete collaborator whose exponential map respects the three special
points `exp(-∞) = 0`, `exp(0) = 1` and `exp(+∞) = +∞`, used to instantiate
the degenerate-regime clauses at concrete inputs. -/
def Sexp : SpecialFns where
  exp := fun u =>
    if u = F.ninf then F.fin 0 else if u = F.pinf then F.pinf else F.fin 1
  ln := fun _ => F.fin 0
  gamma := fun _ => F.fin 1
  ln_gamma := fun _ => F.fin 0
  powf := fun _ _ => F.fin 1
  beta_reg := fun _ _ _ => F.fin 0

/-- A concrete collaborator modelling the real special functions at the
points used by the C2 counterexample: `Γ` is constant, `x^1 = x`, any other
power is the large value `2⁵²` (as `(2⁻⁵³)^(-7/8)` would be), and
`exp(-∞) = 0`. -/
def SC2 : SpecialFns where
  exp := fun u => if u = F.ninf then F.fin 0 else F.fin 1
  ln := fun _ => F.fin 0
  gamma := fun _ => F.fin 1
  ln_gamma := fun _ => F.fin 0
  powf := fun x y => if y = F.fin 1 then x else F.fin (2 ^ 52)
  beta_reg := fun _ _ _ => F.fin 0

namespace F

theorem le_trans {a b c : F} (h1 : le a b = true) (h2 : le b c = true) :
    le a c = true := by
  cases a <;> cases b <;> cases c <;> simp_all [le] <;> exact h1.trans h2

theorem le_of_lt {a b : F} (h : lt a b = true) : le a b = true := by
  cases a <;> cases b <;> simp_all [lt, le] <;> exact h.le

theorem lt_of_le_of_lt {a b c : F} (h1 : le a b = true) (h2 : lt b c = true) :
    lt a c = true := by
  cases a <;> cases b <;> cases c <;> simp_all [lt, le] <;> exact h1.trans_lt h2

theorem lt_of_lt_of_le {a b c : F} (h1 : lt a b = true) (h2 : le b c = true) :
    lt a c = true := by
  cases a <;> cases b <;> cases c <;> simp_all [lt, le] <;> exact h1.trans_le h2

theorem le_of_not_lt {a b : F} (ha : a.isNaN = false) (hb : b.isNaN = false)
    (h : lt a b = false) : le b a = true := by
  cases a <;> cases b <;> simp_all [lt, le, isNaN] <;> exact h

theorem not_lt_of_le {a b : F} (h : le a b = true) : lt b a = false := by
  cases a <;> cases b <;> simp_all [lt, le] <;> exact h

theorem isNaN_false_of_le_left {a b : F} (h : le a b = true) :
    a.isNaN = false := by
  cases a <;> simp_all [le, isNaN]

theorem isNaN_false_of_le_right {a b : F} (h : le a b = true) :
    b.isNaN = false := by
  cases a <;> cases b <;> simp_all [le, isNaN]

theorem fin_of_le_le {a b x : F} {p q : ℚ} (hpq : a = fin p) (hq : b = fin q)
    (h1 : le a x = true) (h2 : le x b = true) : ∃ r : ℚ, x = fin r := by
  subst hpq hq
  cases x <;> simp_all [le]

end F

theorem F.lt_of_not_le {a b : F} (ha : a.isNaN = false) (hb : b.isNaN = false)
    (h : F.le a b = false) : F.lt b a = true := by
  cases a <;> cases b <;> simp_all [F.lt, F.le, F.isNaN] <;> exact h

theorem beta_valid_cases {β : Beta} (h : Beta.valid β) :
    β.shape_a.isNaN = false ∧ β.shape_b.isNaN = false ∧
      F.lt (F.fin 0) β.shape_a = true ∧ F.lt (F.fin 0) β.shape_b = true := by
  unfold Beta.valid Beta.new at h
  by_cases h1 : (β.shape_a.isNaN || β.shape_b.isNaN) = true
  · simp [h1] at h
  · by_cases h2 : (F.le β.shape_a (F.fin 0) || F.le β.shape_b (F.fin 0)) = true
    · simp [h1, h2] at h
    · simp only [Bool.or_eq_true, not_or, Bool.not_eq_true] at h1 h2
      exact ⟨h1.1, h1.2, F.lt_of_not_le h1.1 rfl h2.1,
        F.lt_of_not_le h1.2 rfl h2.2⟩

theorem triangular_valid_cases {t : Triangular} (h : Triangular.valid t) :
    ∃ a b c : ℚ, t.min = F.fin a ∧ t.max = F.fin b ∧ t.mode = F.fin c ∧
      a ≤ c ∧ c ≤ b ∧ a < b := by
  unfold Triangular.valid Triangular.new at h
  split at h
  · exact absurd h (by simp)
  · split at h
    · exact absurd h (by simp)
    · split at h
      · exact absurd h (by simp)
      · split at h
        · exact absurd h (by simp)
        · rename_i h1 h2 h3 h4
          simp only [Bool.or_eq_true, not_or, Bool.not_eq_true] at h1 h2 h3
          obtain ⟨a, ha⟩ : ∃ a, t.min = F.fin a := by
            cases hm : t.min <;> simp_all [F.isInfinite, F.isNaN]
          obtain ⟨b, hb⟩ : ∃ b, t.max = F.fin b := by
            cases hm : t.max <;> simp_all [F.isInfinite, F.isNaN]
          obtain ⟨c, hc⟩ : ∃ c, t.mode = F.fin c := by
            cases hm : t.mode <;> simp_all [F.isInfinite, F.isNaN]
          refine ⟨a, b, c, ha, hb, hc, ?_, ?_, ?_⟩
          · have := h3.2
            rw [hc, ha] at this
            simpa [F.lt] using this
          · have := h3.1
            rw [hb, hc] at this
            simpa [F.lt] using this
          · have hne : ¬ b = a := by
              rw [hb, ha] at h4
              simpa [F.beq] using h4
            have hac : a ≤ c := by
              have := h3.2
              rw [hc, ha] at this
              simpa [F.lt] using this
            have hcb : c ≤ b := by
              have := h3.1
              rw [hb, hc] at this
              simpa [F.lt] using this
            exact lt_of_le_of_ne (hac.trans hcb) (fun hab => hne hab.symm)

theorem F.not_le_of_lt {a b : F} (h : F.lt a b = true) : F.le b a = false := by
  cases a <;> cases b <;> simp_all [F.lt, F.le] <;> exact h

theorem F.nan_le (x : F) : F.le F.nan x = false := by
  cases x <;> rfl

/-- C6: construction is characterized exactly: `Beta::new` fails if and only
if a shape is NaN or non-positive (positive infinity is accepted, since it is
neither), `Triangular::new` fails if and only if an argument is NaN or
infinite, `max < mode`, `mode < min`, or `max == min`; and every successful
construction returns the value holding exactly the given parameters. -/
theorem construction_is_only_fallible_op :
    (∀ a b : F, Beta.new a b = none ↔
      (a.isNaN = true ∨ b.isNaN = true ∨
        F.le a (F.fin 0) = true ∨ F.le b (F.fin 0) = true)) ∧
    (∀ a b : F, Beta.new a b = none ∨ Beta.new a b = some ⟨a, b⟩) ∧
    (∀ mn mx md : F, Triangular.new mn mx md = none ↔
      (mn.isNaN = true ∨ mx.isNaN = true ∨ md.isNaN = true ∨
        mn.isInfinite = true ∨ mx.isInfinite = true ∨ md.isInfinite = true ∨
        F.lt mx md = true ∨ F.lt md mn = true ∨ F.beq mx mn = true)) ∧
    (∀ mn mx md : F,
      Triangular.new mn mx md = none ∨ Triangular.new mn mx md = some ⟨mn, mx, md⟩) := by
  refine ⟨?_, ?_, ?_, ?_⟩
  · intro a b
    unfold Beta.new
    by_cases h1 : (a.isNaN || b.isNaN) = true
    · simp only [h1, if_true]
      simp only [Bool.or_eq_true] at h1
      tauto
    · simp only [h1, if_false]
      by_cases h2 : (F.le a (F.fin 0) || F.le b (F.fin 0)) = true
      · simp only [h2, if_true]
        simp only [Bool.or_eq_true] at h2
        tauto
      · simp only [h2, if_false]
        simp only [Bool.or_eq_true, not_or, Bool.not_eq_true] at h1 h2
        simp [h1.1, h1.2, h2.1, h2.2]
  · intro a b
    unfold Beta.new
    split
    · exact Or.inl rfl
    · split
      · exact Or.inl rfl
      · exact Or.inr rfl
  · intro mn mx md
    unfold Triangular.new
    by_cases h1 : (mn.isInfinite || mx.isInfinite || md.isInfinite) = true
    · simp only [h1, if_true]
      simp only [Bool.or_eq_true] at h1
      tauto
    · simp only [h1, if_false]
      by_cases h2 : (mn.isNaN || mx.isNaN || md.isNaN) = true
      · simp only [h2, if_true]
        simp only [Bool.or_eq_true] at h2
        tauto
      · simp only [h2, if_false]
        by_cases h3 : (F.lt mx md || F.lt md mn) = true
        · simp only [h3, if_true]
          simp only [Bool.or_eq_true] at h3
          tauto
        · simp only [h3, if_false]
          by_cases h4 : F.beq mx mn = true
          · simp only [h4, if_true]
            tauto
          · simp only [h4, if_false]
            simp only [Bool.or_eq_true, not_or, Bool.not_eq_true] at h1 h2 h3
            simp [h1.1.1, h1.1.2, h1.2, h2.1.1, h2.1.2, h2.2, h3.1, h3.2, h4]
  · intro mn mx md
    unfold Triangular.new
    split
    · exact Or.inl rfl
    · split
      · exact Or.inl rfl
      · split
        · exact Or.inl rfl
        · split
          · exact Or.inl rfl
          · exact Or.inr rfl

/-- C7: for a valid `Beta`, the mode is an empty result (never a panic or an
error) exactly when a shape parameter is at most one or both shapes are
infinite; when only `shape_a` is infinite it is `Some(1)`; when only
`shape_b` is infinite it is `Some` of the general formula
`(α - 1) / (α + β - 2)`, whose value there is `0`. -/
theorem beta_mode_contract (β : Beta) (hv : Beta.valid β) :
    (Beta.mode β = none ↔
      (F.le β.shape_a (F.fin 1) = true ∨ F.le β.shape_b (F.fin 1) = true ∨
        (β.shape_a.isInfinite = true ∧ β.shape_b.isInfinite = true))) ∧
    (β.shape_a = F.pinf → β.shape_b.isFinite = true →
      F.lt (F.fin 1) β.shape_b = true → Beta.mode β = some (F.fin 1)) ∧
    (β.shape_b = F.pinf → β.shape_a.isFinite = true →
      F.lt (F.fin 1) β.shape_a = true →
      Beta.mode β = some (F.div (F.sub β.shape_a (F.fin 1))
        (F.sub (F.add β.shape_a β.shape_b) (F.fin 2))) ∧
      Beta.mode β = some (F.fin 0)) := by
  refine ⟨?_, ?_, ?_⟩
  · have key : Beta.mode β = none ↔
        (F.le β.shape_a (F.fin 1) || F.le β.shape_b (F.fin 1) ||
          (β.shape_a.isInfinite && β.shape_b.isInfinite)) = true := by
      unfold Beta.mode
      split
      · rename_i h
        simp [h]
      · rename_i h
        split <;> simp [h]
    rw [key]
    simp only [Bool.or_eq_true, Bool.and_eq_true]
    tauto
  · intro ha hbf hb1
    have hb := F.not_le_of_lt hb1
    have h1 : F.le β.shape_a (F.fin 1) = false := by rw [ha]; rfl
    have h2 : β.shape_b.isInfinite = false := by
      cases hbv : β.shape_b <;> simp_all [F.isFinite, F.isInfinite]
    have ha2 : β.shape_a.isInfinite = true := by rw [ha]; rfl
    unfold Beta.mode
    simp [h1, hb, h2, ha2]
  · intro hb haf ha1
    have ha := F.not_le_of_lt ha1
    obtain ⟨qa, hqa⟩ : ∃ q, β.shape_a = F.fin q := by
      cases hav : β.shape_a <;> simp_all [F.isFinite]
    have ha2 : F.le (F.fin qa) (F.fin 1) = false := by rw [← hqa]; exact ha
    unfold Beta.mode
    rw [hqa, hb]
    have hcond : (F.le (F.fin qa) (F.fin 1) || F.le F.pinf (F.fin 1) ||
        ((F.fin qa).isInfinite && F.pinf.isInfinite)) = false := by
      rw [ha2]
      rfl
    rw [hcond]
    simp only [Bool.false_eq_true, if_false]
    have hfin : (F.fin qa).isInfinite = false := rfl
    rw [hfin]
    simp only [Bool.false_eq_true, if_false]
    constructor
    · trivial
    · simp [F.add, F.sub, F.neg, F.div]

/-- C10: a NaN input fails the outside-support guard `x < 0 || x > 1` and is
routed to the in-domain regimes; for the uniform `Beta(1, 1)` this yields
`pdf(NaN) = 1`, `ln_pdf(NaN) = 0` (the uniform regime's constants) and
`cdf(NaN) = NaN` (the uniform regime returns `x` itself). -/
theorem beta_nan_input_routing (S : SpecialFns) :
    (F.lt F.nan (F.fin 0) || F.lt (F.fin 1) F.nan) = false ∧
    Beta.pdf S ⟨F.fin 1, F.fin 1⟩ F.nan = F.fin 1 ∧
    Beta.ln_pdf S ⟨F.fin 1, F.fin 1⟩ F.nan = F.fin 0 ∧
    Beta.cdf S ⟨F.fin 1, F.fin 1⟩ F.nan = F.nan := by
  refine ⟨rfl, ?_, ?_, ?_⟩
  · unfold Beta.pdf
    norm_num [F.lt, F.isInfinite, ulpsEq, nearTol]
  · unfold Beta.ln_pdf
    norm_num [F.lt, F.isInfinite, ulpsEq, nearTol]
  · unfold Beta.cdf
    norm_num [F.lt, F.le, F.isInfinite, ulpsEq, nearTol]

theorem F.isInfinite_eq_false_of_isFinite {a : F} (h : a.isFinite = true) :
    a.isInfinite = false := by
  cases a <;> simp_all [F.isFinite, F.isInfinite]

/-- C7 witness: the mode of `Beta(5, ∞)` is `Some(0)`. -/
theorem beta_mode_contract_witness :
    Beta.mode ⟨F.fin 5, F.pinf⟩ = some (F.fin 0) :=
  ((beta_mode_contract ⟨F.fin 5, F.pinf⟩ (by decide)).2.2 rfl (by decide)
    (by decide)).2

/-- C9: for a valid `Beta` whose shapes are both near-equal to one, every
in-domain input yields `pdf(x) = 1` and `ln_pdf(x) = 0`, and every input in
`[0, 1)` yields `cdf(x) = x`; the collaborator `S` is universally quantified,
so in particular the regularized-incomplete-beta formula is never consulted. -/
theorem beta_uniform_regime (S : SpecialFns) (β : Beta) (hv : Beta.valid β)
    (ha : ulpsEq β.shape_a (F.fin 1) = true)
    (hb : ulpsEq β.shape_b (F.fin 1) = true) :
    (∀ x : F, F.le (F.fin 0) x = true → F.le x (F.fin 1) = true →
      Beta.pdf S β x = F.fin 1 ∧ Beta.ln_pdf S β x = F.fin 0) ∧
    (∀ x : F, F.le (F.fin 0) x = true → F.lt x (F.fin 1) = true →
      Beta.cdf S β x = x) := by
  obtain ⟨qa, hqa⟩ : ∃ q, β.shape_a = F.fin q := by
    cases h : β.shape_a <;> simp_all [ulpsEq]
  obtain ⟨qb, hqb⟩ : ∃ q, β.shape_b = F.fin q := by
    cases h : β.shape_b <;> simp_all [ulpsEq]
  have hainf : β.shape_a.isInfinite = false := by rw [hqa]; rfl
  have hbinf : β.shape_b.isInfinite = false := by rw [hqb]; rfl
  constructor
  · intro x h0 h1
    have hx0 : F.lt x (F.fin 0) = false := F.not_lt_of_le h0
    have hx1 : F.lt (F.fin 1) x = false := F.not_lt_of_le h1
    constructor
    · unfold Beta.pdf
      simp [hx0, hx1, hainf, hbinf, ha, hb]
    · unfold Beta.ln_pdf
      simp [hx0, hx1, hainf, hbinf, ha, hb]
  · intro x h0 h1
    have hx0 : F.lt x (F.fin 0) = false := F.not_lt_of_le h0
    have hx1 : F.le (F.fin 1) x = false := F.not_le_of_lt h1
    unfold Beta.cdf
    simp [hx0, hx1, hainf, hbinf, ha, hb]

/-- C9 witness: `Beta(1, 1)` has `pdf(0) = pdf(0.5) = pdf(1) = 1`,
`ln_pdf(0.5) = 0`, and `cdf(0.5) = 0.5`. -/
theorem beta_uniform_regime_witness :
    Beta.pdf Sone ⟨F.fin 1, F.fin 1⟩ (F.fin 0) = F.fin 1 ∧
    Beta.pdf Sone ⟨F.fin 1, F.fin 1⟩ (F.fin (1 / 2)) = F.fin 1 ∧
    Beta.pdf Sone ⟨F.fin 1, F.fin 1⟩ (F.fin 1) = F.fin 1 ∧
    Beta.ln_pdf Sone ⟨F.fin 1, F.fin 1⟩ (F.fin (1 / 2)) = F.fin 0 ∧
    Beta.cdf Sone ⟨F.fin 1, F.fin 1⟩ (F.fin (1 / 2)) = F.fin (1 / 2) := by
  have h := beta_uniform_regime Sone ⟨F.fin 1, F.fin 1⟩ (by decide)
    (by norm_num [ulpsEq, nearTol]) (by norm_num [ulpsEq, nearTol])
  exact ⟨(h.1 _ (by decide) (by decide)).1,
    (h.1 _ (by norm_num [F.le]) (by norm_num [F.le])).1,
    (h.1 _ (by decide) (by decide)).1,
    (h.1 _ (by norm_num [F.le]) (by norm_num [F.le])).2,
    h.2 _ (by norm_num [F.le]) (by norm_num [F.lt])⟩

/-- C1: for a valid `Beta` with at least one infinite shape and any in-domain
input: with both shapes infinite the point mass sits at the midpoint
(density `+∞` exactly under near-equality with `0.5`, cdf stepping there);
with only `shape_a` infinite the point mass sits at the upper endpoint
(density `+∞` exactly under near-equality with `1`, cdf `0` below `1` and `1`
at `1`); with only `shape_b` infinite the point mass sits at the lower
endpoint (density `+∞` exactly on the zero test, cdf `1` for every
non-negative input).  The endpoint depends on which shape is infinite. -/
theorem beta_infinite_shape_regimes (S : SpecialFns) (β : Beta) (x : F)
    (hv : Beta.valid β) (h0 : F.le (F.fin 0) x = true)
    (h1 : F.le x (F.fin 1) = true) :
    (β.shape_a = F.pinf → β.shape_b = F.pinf →
      Beta.pdf S β x = (if ulpsEq x (F.fin (1 / 2)) then F.pinf else F.fin 0) ∧
      Beta.cdf S β x = (if F.lt x (F.fin (1 / 2)) then F.fin 0 else F.fin 1)) ∧
    (β.shape_a = F.pinf → β.shape_b.isFinite = true →
      Beta.pdf S β x = (if ulpsEq x (F.fin 1) then F.pinf else F.fin 0) ∧
      Beta.cdf S β x = (if F.lt x (F.fin 1) then F.fin 0 else F.fin 1)) ∧
    (β.shape_b = F.pinf → β.shape_a.isFinite = true →
      Beta.pdf S β x = (if is_zero x then F.pinf else F.fin 0) ∧
      Beta.cdf S β x = F.fin 1) := by
  have hx0 : F.lt x (F.fin 0) = false := F.not_lt_of_le h0
  have hx1 : F.lt (F.fin 1) x = false := F.not_lt_of_le h1
  have hxn : x.isNaN = false := F.isNaN_false_of_le_right h0
  have hguard : (F.lt x (F.fin 0) || F.lt (F.fin 1) x) = false := by
    rw [hx0, hx1]
    rfl
  refine ⟨?_, ?_, ?_⟩
  · intro ha hb
    have ha2 : β.shape_a.isInfinite = true := by rw [ha]; rfl
    have hb2 : β.shape_b.isInfinite = true := by rw [hb]; rfl
    constructor
    · unfold Beta.pdf
      rw [hguard, ha2, hb2]
      rfl
    · unfold Beta.cdf
      by_cases hle : F.le (F.fin 1) x = true
      · have hhalf : F.le (F.fin (1 / 2)) x = true :=
          F.le_trans (by norm_num [F.le]) hle
        have h2 : F.lt x (F.fin (1 / 2)) = false := F.not_lt_of_le hhalf
        rw [hx0, hle, h2]
        rfl
      · have hle2 : F.le (F.fin 1) x = false := by simpa using hle
        rw [hx0, hle2, ha2, hb2]
        rfl
  · intro ha hbf
    have ha2 : β.shape_a.isInfinite = true := by rw [ha]; rfl
    have hb2 := F.isInfinite_eq_false_of_isFinite hbf
    constructor
    · unfold Beta.pdf
      rw [hguard, ha2, hb2]
      rfl
    · unfold Beta.cdf
      by_cases hle : F.le (F.fin 1) x = true
      · have h2 : F.lt x (F.fin 1) = false := F.not_lt_of_le hle
        rw [hx0, hle, h2]
        rfl
      · have hle2 : F.le (F.fin 1) x = false := by simpa using hle
        rw [hx0, hle2, ha2, hb2]
        rfl
  · intro hb haf
    have hb2 : β.shape_b.isInfinite = true := by rw [hb]; rfl
    have ha2 := F.isInfinite_eq_false_of_isFinite haf
    constructor
    · unfold Beta.pdf
      rw [hguard, ha2, hb2]
      rfl
    · unfold Beta.cdf
      by_cases hle : F.le (F.fin 1) x = true
      · rw [hx0, hle]
        rfl
      · have hle2 : F.le (F.fin 1) x = false := by simpa using hle
        rw [hx0, hle2, ha2, hb2]
        rfl

/-- C1 witness: concrete evaluations of the three infinite-shape regimes of
`Beta` at in-domain inputs. -/
theorem beta_infinite_shape_regimes_witness :
    Beta.pdf Sone ⟨F.pinf, F.pinf⟩ (F.fin (1 / 2)) = F.pinf ∧
    Beta.cdf Sone ⟨F.pinf, F.pinf⟩ (F.fin (1 / 4)) = F.fin 0 ∧
    Beta.pdf Sone ⟨F.pinf, F.fin 1⟩ (F.fin 1) = F.pinf ∧
    Beta.cdf Sone ⟨F.pinf, F.fin 1⟩ (F.fin (1 / 2)) = F.fin 0 ∧
    Beta.pdf Sone ⟨F.fin 1, F.pinf⟩ (F.fin 0) = F.pinf ∧
    Beta.cdf Sone ⟨F.fin 1, F.pinf⟩ (F.fin 0) = F.fin 1 := by
  refine ⟨?_, ?_, ?_, ?_, ?_, ?_⟩
  · have h := ((beta_infinite_shape_regimes Sone ⟨F.pinf, F.pinf⟩
      (F.fin (1 / 2)) (by decide) (by norm_num [F.le]) (by norm_num [F.le])).1
      rfl rfl).1
    rw [h]
    norm_num [ulpsEq, nearTol]
  · have h := ((beta_infinite_shape_regimes Sone ⟨F.pinf, F.pinf⟩
      (F.fin (1 / 4)) (by decide) (by norm_num [F.le]) (by norm_num [F.le])).1
      rfl rfl).2
    rw [h]
    norm_num [F.lt]
  · have h := ((beta_infinite_shape_regimes Sone ⟨F.pinf, F.fin 1⟩
      (F.fin 1) (by decide) (by decide) (by decide)).2.1 rfl (by decide)).1
    rw [h]
    norm_num [ulpsEq, nearTol]
  · have h := ((beta_infinite_shape_regimes Sone ⟨F.pinf, F.fin 1⟩
      (F.fin (1 / 2)) (by decide) (by norm_num [F.le]) (by norm_num [F.le])).2.1
      rfl (by decide)).2
    rw [h]
    norm_num [F.lt]
  · have h := ((beta_infinite_shape_regimes Sone ⟨F.fin 1, F.pinf⟩
      (F.fin 0) (by decide) (by decide) (by decide)).2.2 rfl (by decide)).1
    rw [h]
    norm_num [is_zero, ulpsEq, nearTol]
  · exact ((beta_infinite_shape_regimes Sone ⟨F.fin 1, F.pinf⟩
      (F.fin 0) (by decide) (by decide) (by decide)).2.2 rfl (by decide)).2

theorem F.add_fin (p q : ℚ) : F.add (F.fin p) (F.fin q) = F.fin (p + q) := rfl

theorem F.sub_fin (p q : ℚ) : F.sub (F.fin p) (F.fin q) = F.fin (p - q) := by
  simp [F.sub, F.neg, F.add, sub_eq_add_neg]

theorem F.mul_fin (p q : ℚ) : F.mul (F.fin p) (F.fin q) = F.fin (p * q) := rfl

theorem F.le_fin (p q : ℚ) : F.le (F.fin p) (F.fin q) = decide (p ≤ q) := rfl

theorem F.lt_fin (p q : ℚ) : F.lt (F.fin p) (F.fin q) = decide (p < q) := rfl

theorem F.div_fin_of_ne (p : ℚ) {q : ℚ} (h : q ≠ 0) :
    F.div (F.fin p) (F.fin q) = F.fin (p / q) := by
  simp [F.div, h]

theorem F.lt_asymm {a b : F} (h : F.lt a b = true) : F.lt b a = false := by
  cases a <;> cases b <;> simp_all [F.lt]
  exact h.le

/-- C3: in the general case of `Beta::ln_pdf` (finite shapes, not both
near-equal to one) the two boundary inputs are special-cased independently
and symmetrically: at `x = 0` the lower power term contributes `0` when
`shape_a` is near-equal to one and `-∞` otherwise; at `x = 1` the upper power
term contributes `0` when `shape_b` is near-equal to one and `-∞` otherwise;
away from both boundaries the power terms are `(α-1)·ln x` and
`(β-1)·ln(1-x)`, each added to the log-gamma normalizer. -/
theorem beta_lnpdf_boundary_special_cases (S : SpecialFns) (β : Beta)
    (hv : Beta.valid β) (haf : β.shape_a.isFinite = true)
    (hbf : β.shape_b.isFinite = true)
    (hu : (ulpsEq β.shape_a (F.fin 1) && ulpsEq β.shape_b (F.fin 1)) = false) :
    (Beta.ln_pdf S β (F.fin 0) =
      F.add (F.add (Beta.lnNorm S β)
        (if ulpsEq β.shape_a (F.fin 1) then F.fin 0 else F.ninf))
        (F.mul (F.sub β.shape_b (F.fin 1)) (S.ln (F.fin 1)))) ∧
    (Beta.ln_pdf S β (F.fin 1) =
      F.add (F.add (Beta.lnNorm S β)
        (F.mul (F.sub β.shape_a (F.fin 1)) (S.ln (F.fin 1))))
        (if ulpsEq β.shape_b (F.fin 1) then F.fin 0 else F.ninf)) ∧
    (∀ x : F, F.le (F.fin 0) x = true → F.le x (F.fin 1) = true →
      is_zero x = false → ulpsEq x (F.fin 1) = false →
      Beta.ln_pdf S β x =
        F.add (F.add (Beta.lnNorm S β)
          (F.mul (F.sub β.shape_a (F.fin 1)) (S.ln x)))
          (F.mul (F.sub β.shape_b (F.fin 1)) (S.ln (F.sub (F.fin 1) x)))) := by
  have ha2 : β.shape_a.isInfinite = false := F.isInfinite_eq_false_of_isFinite haf
  have hb2 : β.shape_b.isInfinite = false := F.isInfinite_eq_false_of_isFinite hbf
  refine ⟨?_, ?_, ?_⟩
  · have hz : is_zero (F.fin 0) = true := by norm_num [is_zero, ulpsEq, nearTol]
    have hz1 : ulpsEq (F.fin 0) (F.fin 1) = false := by
      norm_num [ulpsEq, nearTol]
    have hsub10 : F.sub (F.fin 1) (F.fin 0) = F.fin 1 := by
      rw [F.sub_fin]
      norm_num
    unfold Beta.ln_pdf
    rw [show (F.lt (F.fin 0) (F.fin 0) || F.lt (F.fin 1) (F.fin 0)) = false
      from rfl]
    rw [ha2, hb2, hu]
    unfold Beta.lnLowTerm Beta.lnHighTerm
    rw [hz, hz1, hsub10]
    simp only [Bool.and_true, Bool.and_false]
    by_cases hua : ulpsEq β.shape_a (F.fin 1) = true
    · rw [hua]
      rfl
    · have hua2 : ulpsEq β.shape_a (F.fin 1) = false := by simpa using hua
      rw [hua2]
      rfl
  · have hz0 : is_zero (F.fin 1) = false := by norm_num [is_zero, ulpsEq, nearTol]
    have hone : ulpsEq (F.fin 1) (F.fin 1) = true := by norm_num [ulpsEq, nearTol]
    unfold Beta.ln_pdf
    rw [show (F.lt (F.fin 1) (F.fin 0) || F.lt (F.fin 1) (F.fin 1)) = false
      from rfl]
    rw [ha2, hb2, hu]
    unfold Beta.lnLowTerm Beta.lnHighTerm
    rw [hz0, hone]
    simp only [Bool.and_true, Bool.and_false]
    by_cases hub : ulpsEq β.shape_b (F.fin 1) = true
    · rw [hub]
      rfl
    · have hub2 : ulpsEq β.shape_b (F.fin 1) = false := by simpa using hub
      rw [hub2]
      rfl
  · intro x h0 h1 hzx hux
    have hx0 : F.lt x (F.fin 0) = false := F.not_lt_of_le h0
    have hx1 : F.lt (F.fin 1) x = false := F.not_lt_of_le h1
    have hguard : (F.lt x (F.fin 0) || F.lt (F.fin 1) x) = false := by
      rw [hx0, hx1]
      rfl
    unfold Beta.ln_pdf
    rw [hguard, ha2, hb2, hu]
    unfold Beta.lnLowTerm Beta.lnHighTerm
    rw [hzx, hux]
    simp only [Bool.and_false]
    rfl

/-- C3 witness: for `Beta(9, 1)` the boundary special-casing gives
`ln_pdf(0) = -∞` (the lower term is a genuine singularity since `9` is not
near one) and `ln_pdf(1) = 0` for the collaborator `Sone` (the upper term is
removable since `shape_b` is near one). -/
theorem beta_lnpdf_boundary_special_cases_witness :
    Beta.ln_pdf Sone ⟨F.fin 9, F.fin 1⟩ (F.fin 0) = F.ninf ∧
    Beta.ln_pdf Sone ⟨F.fin 9, F.fin 1⟩ (F.fin 1) = F.fin 0 := by
  have h := beta_lnpdf_boundary_special_cases Sone ⟨F.fin 9, F.fin 1⟩
    (by decide) (by decide) (by decide) (by norm_num [ulpsEq, nearTol])
  constructor
  · rw [h.1]
    norm_num [Beta.lnNorm, Sone, ulpsEq, nearTol, F.add, F.sub, F.neg, F.mul]
  · rw [h.2.1]
    norm_num [Beta.lnNorm, Sone, ulpsEq, nearTol, F.add, F.sub, F.neg, F.mul]

/-- C8 counterexample: `Triangular::new(0, 1, 0)` is accepted (`mode = min`
is allowed), yet `pdf(min)` evaluates `2·(0-0) / ((1-0)·(0-0)) = 0/0 = NaN`,
so the density does not "rise from 0 at min" and the peak value at the mode
is not `2/(max-min)`: the claim fails at this input. -/
theorem triangular_pdf_shape_counterexample :
    Triangular.valid ⟨F.fin 0, F.fin 1, F.fin 0⟩ ∧
    Triangular.pdf ⟨F.fin 0, F.fin 1, F.fin 0⟩ (F.fin 0) = F.nan ∧
    F.nan ≠ F.fin 0 ∧ F.nan ≠ F.fin 2 := by
  refine ⟨by decide, ?_, by decide, by decide⟩
  unfold Triangular.pdf
  norm_num [F.le, F.mul, F.sub, F.neg, F.add, F.div]

/-- C8 amended: for every valid `Triangular` the density follows exactly the
two-piece formula (`2(x-min)/((max-min)(mode-min))` on `[min, mode]`,
`2(max-x)/((max-min)(max-mode))` on `(mode, max]`) and vanishes outside the
support; the endpoint and peak facts — `pdf(min) = 0` and
`pdf(mode) = 2/(max-min)` — hold whenever `min < mode`, and `pdf(max) = 0`
holds whenever `mode < max` (at `mode = min` the shared formula instead gives
`pdf(min) = 0/0 = NaN`, per the counterexample). -/
theorem triangular_pdf_shape (t : Triangular) (hv : Triangular.valid t) :
    (∀ x : F, F.le t.min x = true → F.le x t.mode = true →
      Triangular.pdf t x = F.div (F.mul (F.fin 2) (F.sub x t.min))
        (F.mul (F.sub t.max t.min) (F.sub t.mode t.min))) ∧
    (∀ x : F, F.lt t.mode x = true → F.le x t.max = true →
      Triangular.pdf t x = F.div (F.mul (F.fin 2) (F.sub t.max x))
        (F.mul (F.sub t.max t.min) (F.sub t.max t.mode))) ∧
    (∀ x : F, F.lt x t.min = true ∨ F.lt t.max x = true →
      Triangular.pdf t x = F.fin 0) ∧
    (F.lt t.min t.mode = true →
      Triangular.pdf t t.min = F.fin 0 ∧
      Triangular.pdf t t.mode = F.div (F.fin 2) (F.sub t.max t.min)) ∧
    (F.lt t.mode t.max = true → Triangular.pdf t t.max = F.fin 0) := by
  obtain ⟨a, b, c, hmin, hmax, hmode, hac, hcb, hab⟩ := triangular_valid_cases hv
  refine ⟨?_, ?_, ?_, ?_, ?_⟩
  · intro x hA hB
    unfold Triangular.pdf
    rw [hA, hB]
    rfl
  · intro x hA hB
    have hxm : F.le x t.mode = false := F.not_le_of_lt hA
    unfold Triangular.pdf
    rw [hxm, hA, hB]
    simp only [Bool.and_false]
    rfl
  · intro x hout
    obtain h | h := hout
    · have h1 : F.le t.min x = false := F.not_le_of_lt h
      have hmm : F.le t.min t.mode = true := by
        rw [hmin, hmode]
        simpa [F.le] using hac
      have hmodex : F.lt t.mode x = false :=
        F.lt_asymm (F.lt_of_lt_of_le h hmm)
      unfold Triangular.pdf
      rw [h1, hmodex]
      simp only [Bool.false_and]
      rfl
    · have h2 : F.le x t.max = false := F.not_le_of_lt h
      have hm : F.le t.mode t.max = true := by
        rw [hmode, hmax]
        simpa [F.le] using hcb
      have hxmode : F.le x t.mode = false :=
        F.not_le_of_lt (F.lt_of_le_of_lt hm h)
      unfold Triangular.pdf
      rw [hxmode, h2]
      simp only [Bool.and_false]
      rfl
  · intro h
    rw [hmin, hmode] at h
    have hax : a < c := by simpa [F.lt] using h
    have hd1 : (0 : ℚ) < b - a := by linarith
    have hd2 : (0 : ℚ) < c - a := by linarith
    have hne : ((b - a) * (c - a)) ≠ 0 := ne_of_gt (mul_pos hd1 hd2)
    constructor
    · unfold Triangular.pdf
      rw [hmin, hmode, hmax]
      rw [show F.le (F.fin a) (F.fin a) = true by simp [F.le]]
      rw [show F.le (F.fin a) (F.fin c) = true by simpa [F.le] using hac]
      simp only [Bool.and_self, if_true]
      simp only [F.sub_fin, F.mul_fin]
      rw [F.div_fin_of_ne _ hne]
      norm_num
    · unfold Triangular.pdf
      rw [hmin, hmode, hmax]
      rw [show F.le (F.fin a) (F.fin c) = true by simpa [F.le] using hac]
      rw [show F.le (F.fin c) (F.fin c) = true by simp [F.le]]
      simp only [Bool.and_self, if_true]
      simp only [F.sub_fin, F.mul_fin]
      rw [F.div_fin_of_ne _ hne, F.div_fin_of_ne _ (ne_of_gt hd1)]
      congr 1
      field_simp
      ring
  · intro h
    rw [hmode, hmax] at h
    have hcbx : c < b := by simpa [F.lt] using h
    have hd1 : (0 : ℚ) < b - a := by linarith
    have hd3 : (0 : ℚ) < b - c := by linarith
    have hne : ((b - a) * (b - c)) ≠ 0 := ne_of_gt (mul_pos hd1 hd3)
    unfold Triangular.pdf
    rw [hmin, hmode, hmax]
    rw [show F.le (F.fin b) (F.fin c) = false by simp [F.le]; linarith]
    simp only [Bool.and_false, Bool.false_eq_true, if_false]
    rw [show F.lt (F.fin c) (F.fin b) = true by simpa [F.lt] using hcbx]
    rw [show F.le (F.fin b) (F.fin b) = true by simp [F.le]]
    simp only [Bool.and_self, if_true]
    simp only [F.sub_fin, F.mul_fin]
    rw [F.div_fin_of_ne _ hne]
    norm_num

/-- C8 witness: concrete evaluations of the amended density shape —
`Triangular(0, 1, 0.5)` has `pdf(0.25) = 1`, `pdf(0.5) = 2`, `pdf(0) = 0`
and `pdf(1) = 0`; `Triangular(-5, -3, -4)` has `pdf(-4) = 1`. -/
theorem triangular_pdf_shape_witness :
    Triangular.pdf ⟨F.fin 0, F.fin 1, F.fin (1 / 2)⟩ (F.fin (1 / 4)) = F.fin 1 ∧
    Triangular.pdf ⟨F.fin 0, F.fin 1, F.fin (1 / 2)⟩ (F.fin (1 / 2)) = F.fin 2 ∧
    Triangular.pdf ⟨F.fin (-5), F.fin (-3), F.fin (-4)⟩ (F.fin (-4)) = F.fin 1 ∧
    Triangular.pdf ⟨F.fin 0, F.fin 1, F.fin (1 / 2)⟩ (F.fin 0) = F.fin 0 ∧
    Triangular.pdf ⟨F.fin 0, F.fin 1, F.fin (1 / 2)⟩ (F.fin 1) = F.fin 0 := by
  have t1 : Triangular.valid ⟨F.fin 0, F.fin 1, F.fin (1 / 2)⟩ := by
    norm_num [Triangular.valid, Triangular.new, F.isNaN, F.isInfinite, F.lt,
      F.beq]
  have t2 : Triangular.valid ⟨F.fin (-5), F.fin (-3), F.fin (-4)⟩ := by
    norm_num [Triangular.valid, Triangular.new, F.isNaN, F.isInfinite, F.lt,
      F.beq]
  have h1 := triangular_pdf_shape _ t1
  have h2 := triangular_pdf_shape _ t2
  refine ⟨?_, ?_, ?_, ?_, ?_⟩
  · rw [h1.1 _ (by norm_num [F.le]) (by norm_num [F.le])]
    norm_num [F.sub_fin, F.mul_fin, F.div]
  · rw [h1.1 _ (by norm_num [F.le]) (by norm_num [F.le])]
    norm_num [F.sub_fin, F.mul_fin, F.div]
  · rw [h2.1 _ (by norm_num [F.le]) (by norm_num [F.le])]
    norm_num [F.sub_fin, F.mul_fin, F.div]
  · exact (h1.2.2.2.1 (by norm_num [F.lt])).1
  · exact h1.2.2.2.2 (by norm_num [F.lt])

theorem F.fin_of_isFinite {a : F} (h : a.isFinite = true) :
    ∃ q, a = F.fin q := by
  cases a <;> simp_all [F.isFinite]

theorem F.fin_of_not_nan_not_inf {a : F} (h1 : a.isNaN = false)
    (h2 : a.isInfinite = false) : ∃ q, a = F.fin q := by
  cases a <;> simp_all [F.isNaN, F.isInfinite]

theorem F.not_nan_of_isFinite {a : F} (h : a.isFinite = true) :
    a.isNaN = false := by
  cases a <;> simp_all [F.isFinite, F.isNaN]

theorem F.nonneg_cases {v : F} (h : F.le (F.fin 0) v = true) :
    v = F.pinf ∨ ∃ r, v = F.fin r ∧ 0 ≤ r := by
  cases v <;> simp_all [F.le]

theorem F.fin_of_le_le2 {x : F} {a c : ℚ} (h1 : F.le (F.fin a) x = true)
    (h2 : F.le x (F.fin c) = true) : ∃ r, x = F.fin r ∧ a ≤ r ∧ r ≤ c := by
  cases x <;> simp_all [F.le]

theorem F.fin_of_lt_le {x : F} {c b : ℚ} (h1 : F.lt (F.fin c) x = true)
    (h2 : F.le x (F.fin b) = true) : ∃ r, x = F.fin r ∧ c < r ∧ r ≤ b := by
  cases x <;> simp_all [F.lt, F.le]

theorem F.fin_bounds_of_guard {x : F} (hx : x.isNaN = false)
    (h : (F.lt x (F.fin 0) || F.lt (F.fin 1) x) = false) :
    ∃ q, x = F.fin q ∧ 0 ≤ q ∧ q ≤ 1 := by
  cases x <;> simp_all [F.lt, F.isNaN]

theorem pos_of_not_is_zero {q : ℚ} (h : is_zero (F.fin q) = false)
    (h0 : 0 ≤ q) : 0 < q := by
  simp only [is_zero, ulpsEq, nearTol, decide_eq_false_iff_not] at h
  rcases lt_or_eq_of_le h0 with hlt | heq
  · exact hlt
  · exfalso
    apply h
    rw [← heq]
    norm_num

theorem lt_one_of_not_ulpsEq_one {q : ℚ} (h : ulpsEq (F.fin q) (F.fin 1) = false)
    (h1 : q ≤ 1) : q < 1 := by
  simp only [ulpsEq, nearTol, decide_eq_false_iff_not] at h
  rcases lt_or_eq_of_le h1 with hlt | heq
  · exact hlt
  · exfalso
    apply h
    rw [heq]
    norm_num

theorem F.mul_fin_pinf {p : ℚ} (h : 0 < p) : F.mul (F.fin p) F.pinf = F.pinf := by
  simp [F.mul, h]

theorem F.mul_pinf_fin {p : ℚ} (h : 0 < p) : F.mul F.pinf (F.fin p) = F.pinf := by
  simp [F.mul, h]

theorem Sone_benign : Benign Sone := by
  refine ⟨?_, ?_, ?_, ?_, ?_, ?_, ?_⟩
  · intro z h1 h2
    exact ⟨rfl, by norm_num [Sone, F.lt]⟩
  · intro z h1 h2
    rfl
  · intro x y h1 h2 h3 h4
    constructor
    · norm_num [Sone, F.le]
    · intro h
      rcases h with h | h <;> simp [Sone] at h
  · intro u h
    rfl
  · intro y h1 h2
    rfl
  · rfl
  · intro a b x
    rfl

theorem triangular_pdf_val (t : Triangular) (hv : Triangular.valid t) (x : F)
    (hdeg : t.mode = t.min → x ≠ t.min) :
    ∃ r : ℚ, Triangular.pdf t x = F.fin r ∧ 0 ≤ r := by
  obtain ⟨a, b, c, hmin, hmax, hmode, hac, hcb, hab⟩ := triangular_valid_cases hv
  by_cases hc1 : (F.le t.min x && F.le x t.mode) = true
  · obtain ⟨hx1, hx2⟩ := Bool.and_eq_true_iff.mp hc1
    rw [hmin] at hx1
    rw [hmode] at hx2
    obtain ⟨qx, hqx, haq, hqc⟩ := F.fin_of_le_le2 hx1 hx2
    have hacx : a < c := by
      rcases lt_or_eq_of_le hac with h | h
      · exact h
      · exfalso
        have hqa : qx = a := le_antisymm (h ▸ hqc) haq
        apply hdeg
        · rw [hmode, hmin, ← h]
        · rw [hqx, hqa, hmin]
    have hd : ((b - a) * (c - a)) ≠ 0 :=
      ne_of_gt (mul_pos (by linarith) (by linarith))
    refine ⟨2 * (qx - a) / ((b - a) * (c - a)), ?_, ?_⟩
    · unfold Triangular.pdf
      rw [hc1]
      rw [hqx, hmin, hmax, hmode]
      simp only [F.sub_fin, F.mul_fin, if_true]
      rw [F.div_fin_of_ne _ hd]
    · apply div_nonneg (by linarith)
        (le_of_lt (mul_pos (by linarith) (by linarith)))
  · by_cases hc2 : (F.lt t.mode x && F.le x t.max) = true
    · obtain ⟨hx1, hx2⟩ := Bool.and_eq_true_iff.mp hc2
      rw [hmode] at hx1
      rw [hmax] at hx2
      obtain ⟨qx, hqx, hcq, hqb⟩ := F.fin_of_lt_le hx1 hx2
      have hcbx : c < b := lt_of_lt_of_le hcq hqb
      have hd : ((b - a) * (b - c)) ≠ 0 :=
        ne_of_gt (mul_pos (by linarith) (by linarith))
      refine ⟨2 * (b - qx) / ((b - a) * (b - c)), ?_, ?_⟩
      · unfold Triangular.pdf
        have hc1f : (F.le t.min x && F.le x t.mode) = false := by simpa using hc1
        rw [hc1f, hc2]
        simp only [Bool.false_eq_true, if_false]
        rw [hqx, hmin, hmax, hmode]
        simp only [F.sub_fin, F.mul_fin, if_true]
        rw [F.div_fin_of_ne _ hd]
      · apply div_nonneg (by linarith)
          (le_of_lt (mul_pos (by linarith) (by linarith)))
    · refine ⟨0, ?_, le_refl 0⟩
      unfold Triangular.pdf
      have hc1f : (F.le t.min x && F.le x t.mode) = false := by simpa using hc1
      have hc2f : (F.lt t.mode x && F.le x t.max) = false := by simpa using hc2
      rw [hc1f, hc2f]
      rfl

theorem triangular_cdf_val (t : Triangular) (hv : Triangular.valid t) (x : F)
    (hdeg : t.mode = t.min → x ≠ t.min) :
    ∃ r : ℚ, Triangular.cdf t x = F.fin r ∧ 0 ≤ r ∧ r ≤ 1 := by
  obtain ⟨a, b, c, hmin, hmax, hmode, hac, hcb, hab⟩ := triangular_valid_cases hv
  by_cases hc0 : F.lt x t.min = true
  · refine ⟨0, ?_, le_refl 0, by norm_num⟩
    unfold Triangular.cdf
    rw [hc0]
    rfl
  · have hc0f : F.lt x t.min = false := by simpa using hc0
    by_cases hc1 : (F.le t.min x && F.le x t.mode) = true
    · obtain ⟨hx1, hx2⟩ := Bool.and_eq_true_iff.mp hc1
      rw [hmin] at hx1
      rw [hmode] at hx2
      obtain ⟨qx, hqx, haq, hqc⟩ := F.fin_of_le_le2 hx1 hx2
      have hacx : a < c := by
        rcases lt_or_eq_of_le hac with h | h
        · exact h
        · exfalso
          have hqa : qx = a := le_antisymm (h ▸ hqc) haq
          apply hdeg
          · rw [hmode, hmin, ← h]
          · rw [hqx, hqa, hmin]
      have hd : ((b - a) * (c - a)) ≠ 0 :=
        ne_of_gt (mul_pos (by linarith) (by linarith))
      refine ⟨(qx - a) * (qx - a) / ((b - a) * (c - a)), ?_, ?_, ?_⟩
      · unfold Triangular.cdf Triangular.cdfLow
        rw [hc0f, hc1]
        simp only [Bool.false_eq_true, if_false]
        rw [hqx, hmin, hmax, hmode]
        simp only [F.sub_fin, F.mul_fin, if_true]
        rw [F.div_fin_of_ne _ hd]
      · apply div_nonneg (mul_self_nonneg _)
          (le_of_lt (mul_pos (by linarith) (by linarith)))
      · rw [div_le_one (mul_pos (by linarith) (by linarith))]
        nlinarith
    · by_cases hc2 : (F.lt t.mode x && F.le x t.max) = true
      · obtain ⟨hx1, hx2⟩ := Bool.and_eq_true_iff.mp hc2
        rw [hmode] at hx1
        rw [hmax] at hx2
        obtain ⟨qx, hqx, hcq, hqb⟩ := F.fin_of_lt_le hx1 hx2
        have hcbx : c < b := lt_of_lt_of_le hcq hqb
        have hd : ((b - a) * (b - c)) ≠ 0 :=
          ne_of_gt (mul_pos (by linarith) (by linarith))
        refine ⟨1 - (b - qx) * (b - qx) / ((b - a) * (b - c)), ?_, ?_, ?_⟩
        · unfold Triangular.cdf Triangular.cdfHigh
          have hc1f : (F.le t.min x && F.le x t.mode) = false := by
            simpa using hc1
          rw [hc0f, hc1f, hc2]
          simp only [Bool.false_eq_true, if_false]
          rw [hqx, hmin, hmax, hmode]
          simp only [F.sub_fin, F.mul_fin, if_true]
          rw [F.div_fin_of_ne _ hd, F.sub_fin]
        · have hnum : (b - qx) * (b - qx) ≤ (b - a) * (b - c) := by nlinarith
          have hpos : (0 : ℚ) < (b - a) * (b - c) :=
            mul_pos (by linarith) (by linarith)
          have := (div_le_one hpos).mpr hnum
          linarith
        · have hnn : (0 : ℚ) ≤ (b - qx) * (b - qx) / ((b - a) * (b - c)) :=
            div_nonneg (mul_self_nonneg _)
              (le_of_lt (mul_pos (by linarith) (by linarith)))
          linarith
      · refine ⟨1, ?_, by norm_num, le_refl 1⟩
        unfold Triangular.cdf
        have hc1f : (F.le t.min x && F.le x t.mode) = false := by simpa using hc1
        have hc2f : (F.lt t.mode x && F.le x t.max) = false := by simpa using hc2
        rw [hc0f, hc1f, hc2f]
        rfl

theorem beta_ln_pdf_val (S : SpecialFns) (hS : Benign S) (β : Beta)
    (hv : Beta.valid β) (x : F) (hx : x.isNaN = false) :
    Beta.ln_pdf S β x = F.ninf ∨ Beta.ln_pdf S β x = F.pinf ∨
      ∃ q, Beta.ln_pdf S β x = F.fin q := by
  obtain ⟨hna, hnb, hpa, hpb⟩ := beta_valid_cases hv
  unfold Beta.ln_pdf
  split
  · exact Or.inl rfl
  · split
    · split
      · exact Or.inr (Or.inl rfl)
      · exact Or.inl rfl
    · split
      · split
        · exact Or.inr (Or.inl rfl)
        · exact Or.inl rfl
      · split
        · split
          · exact Or.inr (Or.inl rfl)
          · exact Or.inl rfl
        · split
          · exact Or.inr (Or.inr ⟨0, rfl⟩)
          · rename_i hg hab2 hai hbi huni
            have hai2 : β.shape_a.isInfinite = false := by simpa using hai
            have hbi2 : β.shape_b.isInfinite = false := by simpa using hbi
            obtain ⟨qa, hqa⟩ := F.fin_of_not_nan_not_inf hna hai2
            obtain ⟨qb, hqb⟩ := F.fin_of_not_nan_not_inf hnb hbi2
            obtain ⟨qx, hqx, hx0, hx1⟩ :=
              F.fin_bounds_of_guard hx (by simpa using hg)
            rw [hqa] at hpa
            rw [hqb] at hpb
            have hqa0 : 0 < qa := by simpa [F.lt] using hpa
            have hqb0 : 0 < qb := by simpa [F.lt] using hpb
            obtain ⟨g1, hg1⟩ := F.fin_of_isFinite
              (hS.ln_gamma_fin (F.add β.shape_a β.shape_b)
                (by rw [hqa, hqb, F.add_fin]; rfl)
                (by rw [hqa, hqb, F.add_fin]; simp [F.lt]; linarith))
            obtain ⟨g2, hg2⟩ := F.fin_of_isFinite
              (hS.ln_gamma_fin β.shape_a (by rw [hqa]; rfl)
                (by rw [hqa]; simpa [F.lt] using hqa0))
            obtain ⟨g3, hg3⟩ := F.fin_of_isFinite
              (hS.ln_gamma_fin β.shape_b (by rw [hqb]; rfl)
                (by rw [hqb]; simpa [F.lt] using hqb0))
            have haa : Beta.lnNorm S β = F.fin (g1 - g2 - g3) := by
              unfold Beta.lnNorm
              rw [hg1, hg2, hg3, F.sub_fin, F.sub_fin]
            have hbb : Beta.lnLowTerm S β x = F.ninf ∨
                ∃ u, Beta.lnLowTerm S β x = F.fin u := by
              unfold Beta.lnLowTerm
              split
              · exact Or.inr ⟨0, rfl⟩
              · split
                · exact Or.inl rfl
                · rename_i hz1 hz2
                  have hz : is_zero x = false := by simpa using hz2
                  rw [hqx] at hz
                  have hxpos : 0 < qx := pos_of_not_is_zero hz hx0
                  obtain ⟨l, hl⟩ := F.fin_of_isFinite
                    (hS.ln_fin x (by rw [hqx]; rfl)
                      (by rw [hqx]; simpa [F.lt] using hxpos))
                  exact Or.inr ⟨(qa - 1) * l,
                    by rw [hqa, hl, F.sub_fin, F.mul_fin]⟩
            have hcc : Beta.lnHighTerm S β x = F.ninf ∨
                ∃ v, Beta.lnHighTerm S β x = F.fin v := by
              unfold Beta.lnHighTerm
              split
              · exact Or.inr ⟨0, rfl⟩
              · split
                · exact Or.inl rfl
                · rename_i hu1 hu2
                  have hu : ulpsEq x (F.fin 1) = false := by simpa using hu2
                  rw [hqx] at hu
                  have hxlt : qx < 1 := lt_one_of_not_ulpsEq_one hu hx1
                  obtain ⟨l, hl⟩ := F.fin_of_isFinite
                    (hS.ln_fin (F.sub (F.fin 1) x)
                      (by rw [hqx, F.sub_fin]; rfl)
                      (by rw [hqx, F.sub_fin]; simp [F.lt]; linarith))
                  exact Or.inr ⟨(qb - 1) * l,
                    by rw [hqb, hl, F.sub_fin, F.mul_fin]⟩
            rcases hbb with hbb | ⟨u, hbb⟩ <;> rcases hcc with hcc | ⟨v, hcc⟩
            · left
              rw [haa, hbb, hcc]
              rfl
            · left
              rw [haa, hbb, hcc]
              rfl
            · left
              rw [haa, hbb, hcc]
              rfl
            · right
              right
              exact ⟨g1 - g2 - g3 + u + v,
                by rw [haa, hbb, hcc, F.add_fin, F.add_fin]⟩

theorem beta_pdf_not_nan (S : SpecialFns) (hS : Benign S) (β : Beta)
    (hv : Beta.valid β) (x : F) (hx : x.isNaN = false) :
    (Beta.pdf S β x).isNaN = false := by
  obtain ⟨hna, hnb, hpa, hpb⟩ := beta_valid_cases hv
  unfold Beta.pdf
  split
  · rfl
  · split
    · split <;> rfl
    · split
      · split <;> rfl
      · split
        · split <;> rfl
        · split
          · rfl
          · split
            · have hl := beta_ln_pdf_val S hS β hv x hx
              have hnn : (Beta.ln_pdf S β x).isNaN = false := by
                rcases hl with h | h | ⟨q, h⟩ <;> rw [h] <;> rfl
              exact hS.exp_not_nan _ hnn
            · rename_i hg hab2 hai hbi huni h80
              have hai2 : β.shape_a.isInfinite = false := by simpa using hai
              have hbi2 : β.shape_b.isInfinite = false := by simpa using hbi
              obtain ⟨qa, hqa⟩ := F.fin_of_not_nan_not_inf hna hai2
              obtain ⟨qb, hqb⟩ := F.fin_of_not_nan_not_inf hnb hbi2
              obtain ⟨qx, hqx, hx0, hx1⟩ :=
                F.fin_bounds_of_guard hx (by simpa using hg)
              rw [hqa] at hpa
              rw [hqb] at hpb
              have hqa0 : 0 < qa := by simpa [F.lt] using hpa
              have hqb0 : 0 < qb := by simpa [F.lt] using hpb
              obtain ⟨hfab, hpab⟩ := hS.gamma_pos (F.add β.shape_a β.shape_b)
                (by rw [hqa, hqb, F.add_fin]; rfl)
                (by rw [hqa, hqb, F.add_fin]; simp [F.lt]; linarith)
              obtain ⟨gab, hgab⟩ := F.fin_of_isFinite hfab
              have hgab0 : 0 < gab := by
                rw [hgab] at hpab
                simpa [F.lt] using hpab
              obtain ⟨hfa, hpga⟩ := hS.gamma_pos β.shape_a
                (by rw [hqa]; rfl) (by rw [hqa]; simpa [F.lt] using hqa0)
              obtain ⟨ga, hga⟩ := F.fin_of_isFinite hfa
              have hga0 : 0 < ga := by
                rw [hga] at hpga
                simpa [F.lt] using hpga
              obtain ⟨hfb, hpgb⟩ := hS.gamma_pos β.shape_b
                (by rw [hqb]; rfl) (by rw [hqb]; simpa [F.lt] using hqb0)
              obtain ⟨gb, hgb⟩ := F.fin_of_isFinite hfb
              have hgb0 : 0 < gb := by
                rw [hgb] at hpgb
                simpa [F.lt] using hpgb
              have hbbv : F.div (S.gamma (F.add β.shape_a β.shape_b))
                  (F.mul (S.gamma β.shape_a) (S.gamma β.shape_b)) =
                  F.fin (gab / (ga * gb)) := by
                rw [hgab, hga, hgb, F.mul_fin,
                  F.div_fin_of_ne _ (ne_of_gt (mul_pos hga0 hgb0))]
              have hp0 : 0 < gab / (ga * gb) :=
                div_pos hgab0 (mul_pos hga0 hgb0)
              obtain ⟨h1le, h1imp⟩ := hS.powf_ok x (F.sub β.shape_a (F.fin 1))
                (by rw [hqx]; rfl) (by rw [hqa, F.sub_fin]; rfl)
                (by rw [hqx]; simpa [F.le] using hx0)
                (by rw [hqx]; simpa [F.le] using hx1)
              obtain ⟨h2le, h2imp⟩ := hS.powf_ok (F.sub (F.fin 1) x)
                (F.sub β.shape_b (F.fin 1))
                (by rw [hqx, F.sub_fin]; rfl) (by rw [hqb, F.sub_fin]; rfl)
                (by rw [hqx, F.sub_fin]; simp [F.le]; linarith)
                (by rw [hqx, F.sub_fin]; simp [F.le]; linarith)
              rcases F.nonneg_cases h1le with ht1 | ⟨r1, ht1, hr1⟩ <;>
                rcases F.nonneg_cases h2le with ht2 | ⟨r2, ht2, hr2⟩
              · exfalso
                have c1 := h1imp (Or.inr ht1)
                have c2 := h2imp (Or.inr ht2)
                rw [hqx] at c1
                rw [hqx, F.sub_fin] at c2
                simp [F.lt] at c1 c2
                linarith
              · rcases eq_or_lt_of_le hr2 with hr2e | hr2p
                · exfalso
                  have c1 := h1imp (Or.inr ht1)
                  have c2 := h2imp (Or.inl (ht2.trans (by rw [← hr2e])))
                  rw [hqx] at c1
                  rw [hqx, F.sub_fin] at c2
                  simp [F.lt] at c1 c2
                  linarith
                · rw [hbbv, ht1, ht2, F.mul_fin_pinf hp0, F.mul_pinf_fin hr2p]
                  rfl
              · rcases eq_or_lt_of_le hr1 with hr1e | hr1p
                · exfalso
                  have c1 := h1imp (Or.inl (ht1.trans (by rw [← hr1e])))
                  have c2 := h2imp (Or.inr ht2)
                  rw [hqx] at c1
                  rw [hqx, F.sub_fin] at c2
                  simp [F.lt] at c1 c2
                  linarith
                · rw [hbbv, ht1, ht2, F.mul_fin,
                    F.mul_fin_pinf (mul_pos hp0 hr1p)]
                  rfl
              · rw [hbbv, ht1, ht2, F.mul_fin, F.mul_fin]
                rfl

/-- C4 counterexample: `Triangular::new(0, 1, 0)` is accepted, yet at the
non-NaN input `x = 0` the cumulative distribution evaluates
`(0-0)²/((1-0)·(0-0)) = 0/0 = NaN`, and the density is NaN there as well — a
capability operation of a validly constructed distribution produces NaN from
a non-NaN input. -/
theorem capability_totality_counterexample :
    Triangular.valid ⟨F.fin 0, F.fin 1, F.fin 0⟩ ∧
    (F.fin 0 : F).isNaN = false ∧
    (Triangular.cdf ⟨F.fin 0, F.fin 1, F.fin 0⟩ (F.fin 0)).isNaN = true ∧
    (Triangular.pdf ⟨F.fin 0, F.fin 1, F.fin 0⟩ (F.fin 0)).isNaN = true := by
  refine ⟨by decide, rfl, ?_, ?_⟩
  · unfold Triangular.cdf Triangular.cdfLow
    norm_num [F.lt, F.le, F.mul, F.sub, F.neg, F.add, F.div, F.isNaN]
  · unfold Triangular.pdf
    norm_num [F.lt, F.le, F.mul, F.sub, F.neg, F.add, F.div, F.isNaN]

/-- C4 amended: for a well-behaved special-function collaborator, every
capability operation of a validly constructed distribution returns a defined
numeric value (never NaN) on every non-NaN input — without exception for
`Beta`, and for `Triangular` except at the single degenerate point
`x = min` of a distribution with `mode = min`, where `pdf`, `ln_pdf` and
`cdf` all evaluate `0/0 = NaN` (the counterexample); `mode = max` needs no
exclusion. -/
theorem capability_operations_total (S : SpecialFns) (hS : Benign S) :
    (∀ (β : Beta) (x : F), Beta.valid β → x.isNaN = false →
      (Beta.pdf S β x).isNaN = false ∧ (Beta.ln_pdf S β x).isNaN = false ∧
        (Beta.cdf S β x).isNaN = false) ∧
    (∀ (t : Triangular) (x : F), Triangular.valid t → x.isNaN = false →
      (t.mode = t.min → x ≠ t.min) →
      (Triangular.pdf t x).isNaN = false ∧
        (Triangular.ln_pdf S t x).isNaN = false ∧
        (Triangular.cdf t x).isNaN = false) := by
  constructor
  · intro β x hv hx
    refine ⟨beta_pdf_not_nan S hS β hv x hx, ?_, ?_⟩
    · have hl := beta_ln_pdf_val S hS β hv x hx
      rcases hl with h | h | ⟨q, h⟩ <;> rw [h] <;> rfl
    · unfold Beta.cdf
      split
      · rfl
      · split
        · rfl
        · split
          · split <;> rfl
          · split
            · split <;> rfl
            · split
              · rfl
              · split
                · exact hx
                · exact hS.beta_reg_not_nan _ _ _
  · intro t x hv hx hdeg
    obtain ⟨r, hr, hr0⟩ := triangular_pdf_val t hv x hdeg
    refine ⟨by rw [hr]; rfl, ?_, ?_⟩
    · unfold Triangular.ln_pdf
      rw [hr]
      rcases eq_or_lt_of_le hr0 with h0 | hpos
      · rw [← h0]
        exact hS.ln_zero_not_nan
      · exact F.not_nan_of_isFinite
          (hS.ln_fin (F.fin r) rfl (by simpa [F.lt] using hpos))
    · obtain ⟨r2, hr2, h1, h2⟩ := triangular_cdf_val t hv x hdeg
      rw [hr2]
      rfl

/-- C4 witness: with the concrete collaborator `Sone`, the operations of
`Beta(9, 1)` and `Triangular(0, 1, 0.5)` are NaN-free at concrete in-domain
inputs. -/
theorem capability_operations_total_witness :
    (Beta.pdf Sone ⟨F.fin 9, F.fin 1⟩ (F.fin (1 / 2))).isNaN = false ∧
    (Beta.cdf Sone ⟨F.fin 9, F.fin 1⟩ (F.fin (1 / 2))).isNaN = false ∧
    (Triangular.cdf ⟨F.fin 0, F.fin 1, F.fin (1 / 2)⟩ (F.fin (1 / 4))).isNaN
      = false := by
  have h := capability_operations_total Sone Sone_benign
  have t1 : Triangular.valid ⟨F.fin 0, F.fin 1, F.fin (1 / 2)⟩ := by
    norm_num [Triangular.valid, Triangular.new, F.isNaN, F.isInfinite, F.lt,
      F.beq]
  refine ⟨(h.1 ⟨F.fin 9, F.fin 1⟩ (F.fin (1 / 2)) (by decide) rfl).1,
    (h.1 ⟨F.fin 9, F.fin 1⟩ (F.fin (1 / 2)) (by decide) rfl).2.2,
    (h.2 ⟨F.fin 0, F.fin 1, F.fin (1 / 2)⟩ (F.fin (1 / 4)) t1 rfl ?_).2.2⟩
  intro hcontra
  exact absurd hcontra (by norm_num)

theorem triangular_cdf_lt_min (t : Triangular) (x : F)
    (h : F.lt x t.min = true) : Triangular.cdf t x = F.fin 0 := by
  unfold Triangular.cdf
  rw [h]
  rfl

theorem triangular_cdf_fin_eval (t : Triangular) {a b c : ℚ}
    (hmin : t.min = F.fin a) (hmax : t.max = F.fin b) (hmode : t.mode = F.fin c)
    (hacx : a < c) (hcb : c ≤ b) (q : ℚ) (hq : a ≤ q) (hqb : q < b) :
    Triangular.cdf t (F.fin q) =
      F.fin (if q ≤ c then (q - a) * (q - a) / ((b - a) * (c - a))
        else 1 - (b - q) * (b - q) / ((b - a) * (b - c))) := by
  unfold Triangular.cdf
  rw [hmin, hmax, hmode]
  have h0 : F.lt (F.fin q) (F.fin a) = false := by
    simp only [F.lt_fin, decide_eq_false_iff_not, not_lt]
    exact hq
  rw [h0]
  simp only [Bool.false_eq_true, if_false]
  by_cases hqc : q ≤ c
  · have hcond : (F.le (F.fin a) (F.fin q) && F.le (F.fin q) (F.fin c)) = true := by
      simp only [F.le_fin, Bool.and_eq_true, decide_eq_true_eq]
      exact ⟨hq, hqc⟩
    rw [hcond]
    simp only [if_true]
    unfold Triangular.cdfLow
    rw [hmin, hmax, hmode]
    simp only [F.sub_fin, F.mul_fin]
    rw [F.div_fin_of_ne _ (ne_of_gt (mul_pos (by linarith) (by linarith)))]
    rw [if_pos hqc]
  · have hcq : c < q := not_le.mp hqc
    have hcb2 : c < b := lt_trans hcq hqb
    have hcond : (F.le (F.fin a) (F.fin q) && F.le (F.fin q) (F.fin c)) = false := by
      simp only [F.le_fin, Bool.and_eq_false_iff, decide_eq_false_iff_not]
      right
      exact hqc
    rw [hcond]
    simp only [Bool.false_eq_true, if_false]
    have hcond2 : (F.lt (F.fin c) (F.fin q) && F.le (F.fin q) (F.fin b)) = true := by
      simp only [F.lt_fin, F.le_fin, Bool.and_eq_true, decide_eq_true_eq]
      exact ⟨hcq, le_of_lt hqb⟩
    rw [hcond2]
    simp only [if_true]
    unfold Triangular.cdfHigh
    rw [hmin, hmax, hmode]
    simp only [F.sub_fin, F.mul_fin]
    rw [F.div_fin_of_ne _ (ne_of_gt (mul_pos (by linarith) (by linarith)))]
    rw [F.sub_fin, if_neg hqc]

theorem triangular_cdf_at_min (t : Triangular) (hv : Triangular.valid t)
    (hmm : F.lt t.min t.mode = true) : Triangular.cdf t t.min = F.fin 0 := by
  obtain ⟨a, b, c, hmin, hmax, hmode, hac, hcb, hab⟩ := triangular_valid_cases hv
  rw [hmin, hmode] at hmm
  have hacx : a < c := by simpa [F.lt] using hmm
  unfold Triangular.cdf
  rw [hmin, hmax, hmode]
  have h0 : F.lt (F.fin a) (F.fin a) = false := by
    simp only [F.lt_fin, decide_eq_false_iff_not, not_lt]
    exact le_refl a
  rw [h0]
  simp only [Bool.false_eq_true, if_false]
  have hcond : (F.le (F.fin a) (F.fin a) && F.le (F.fin a) (F.fin c)) = true := by
    simp only [F.le_fin, Bool.and_eq_true, decide_eq_true_eq]
    exact ⟨le_refl a, hac⟩
  rw [hcond]
  simp only [if_true]
  unfold Triangular.cdfLow
  rw [hmin, hmax, hmode]
  simp only [F.sub_fin, F.mul_fin]
  rw [F.div_fin_of_ne _ (ne_of_gt (mul_pos (by linarith) (by linarith)))]
  rw [sub_self, zero_mul, zero_div]

theorem triangular_cdf_fin_eval_deg (t : Triangular) {a b : ℚ}
    (hmin : t.min = F.fin a) (hmax : t.max = F.fin b) (hmode : t.mode = F.fin a)
    (q : ℚ) (hq : a < q) (hqb : q ≤ b) :
    Triangular.cdf t (F.fin q) =
      F.fin (1 - (b - q) * (b - q) / ((b - a) * (b - a))) := by
  have hab : a < b := lt_of_lt_of_le hq hqb
  unfold Triangular.cdf
  rw [hmin, hmax, hmode]
  have h0 : F.lt (F.fin q) (F.fin a) = false := by
    simp only [F.lt_fin, decide_eq_false_iff_not, not_lt]
    exact le_of_lt hq
  rw [h0]
  simp only [Bool.false_eq_true, if_false]
  have hcond : (F.le (F.fin a) (F.fin q) && F.le (F.fin q) (F.fin a)) = false := by
    simp only [F.le_fin, Bool.and_eq_false_iff, decide_eq_false_iff_not]
    right
    exact not_le.mpr hq
  rw [hcond]
  simp only [Bool.false_eq_true, if_false]
  have hcond2 : (F.lt (F.fin a) (F.fin q) && F.le (F.fin q) (F.fin b)) = true := by
    simp only [F.lt_fin, F.le_fin, Bool.and_eq_true, decide_eq_true_eq]
    exact ⟨hq, hqb⟩
  rw [hcond2]
  simp only [if_true]
  unfold Triangular.cdfHigh
  rw [hmin, hmax, hmode]
  simp only [F.sub_fin, F.mul_fin]
  rw [F.div_fin_of_ne _ (ne_of_gt (mul_pos (by linarith) (by linarith)))]
  rw [F.sub_fin]

theorem triangular_cdf_ge_max (t : Triangular) (hv : Triangular.valid t)
    (x : F) (h : F.le t.max x = true) : Triangular.cdf t x = F.fin 1 := by
  obtain ⟨a, b, c, hmin, hmax, hmode, hac, hcb, hab⟩ := triangular_valid_cases hv
  rw [hmax] at h
  have hcases : x = F.pinf ∨ ∃ q, x = F.fin q ∧ b ≤ q := by
    cases x <;> simp_all [F.le]
  rcases hcases with hx | ⟨qx, hqx, hbq⟩
  · unfold Triangular.cdf
    rw [hx, hmin, hmax, hmode]
    rfl
  · unfold Triangular.cdf
    rw [hqx, hmin, hmax, hmode]
    have h1 : F.lt (F.fin qx) (F.fin a) = false := by
      simp only [F.lt_fin, decide_eq_false_iff_not, not_lt]
      linarith
    rw [h1]
    simp only [Bool.false_eq_true, if_false]
    by_cases hqc : qx ≤ c
    · have hqb : qx = b := le_antisymm (le_trans hqc hcb) hbq
      have hcb2 : c = b := le_antisymm hcb (by linarith)
      have hc1 : (F.le (F.fin a) (F.fin qx) && F.le (F.fin qx) (F.fin c)) = true := by
        simp only [F.le_fin, Bool.and_eq_true, decide_eq_true_eq]
        exact ⟨by linarith, hqc⟩
      rw [hc1]
      simp only [if_true]
      unfold Triangular.cdfLow
      rw [hmin, hmax, hmode]
      simp only [F.sub_fin, F.mul_fin]
      have hd : ((b - a) * (c - a)) ≠ 0 :=
        ne_of_gt (mul_pos (by linarith) (by linarith))
      rw [F.div_fin_of_ne _ hd]
      congr 1
      rw [hqb, hcb2]
      rw [div_self (by rw [← hcb2] at hd; rw [hcb2] at hd; exact hd)]
    · have hcq : c < qx := not_le.mp hqc
      have hc1 : (F.le (F.fin a) (F.fin qx) && F.le (F.fin qx) (F.fin c)) = false := by
        simp only [F.le_fin, Bool.and_eq_false_iff, decide_eq_false_iff_not]
        right
        exact hqc
      rw [hc1]
      simp only [Bool.false_eq_true, if_false]
      by_cases hxb : qx ≤ b
      · have hqxb : qx = b := le_antisymm hxb hbq
        have hc2 : (F.lt (F.fin c) (F.fin qx) && F.le (F.fin qx) (F.fin b)) = true := by
          simp only [F.lt_fin, F.le_fin, Bool.and_eq_true, decide_eq_true_eq]
          exact ⟨hcq, hxb⟩
        rw [hc2]
        simp only [if_true]
        unfold Triangular.cdfHigh
        rw [hmin, hmax, hmode]
        simp only [F.sub_fin, F.mul_fin]
        have hcb3 : c < b := lt_of_lt_of_le hcq hxb
        rw [F.div_fin_of_ne _ (ne_of_gt (mul_pos (by linarith) (by linarith)))]
        rw [F.sub_fin]
        congr 1
        rw [hqxb]
        norm_num
      · have hc2 : (F.lt (F.fin c) (F.fin qx) && F.le (F.fin qx) (F.fin b)) = false := by
          simp only [F.lt_fin, F.le_fin, Bool.and_eq_false_iff, decide_eq_false_iff_not]
          right
          exact hxb
        rw [hc2]
        rfl

theorem triangular_cdf_mono (t : Triangular) (hv : Triangular.valid t)
    (x y : F) (hxy : F.le x y = true)
    (hdx : t.mode = t.min → x ≠ t.min) (hdy : t.mode = t.min → y ≠ t.min) :
    F.le (Triangular.cdf t x) (Triangular.cdf t y) = true := by
  obtain ⟨a, b, c, hmin, hmax, hmode, hac, hcb, hab⟩ := triangular_valid_cases hv
  have hxn := F.isNaN_false_of_le_left hxy
  have hyn := F.isNaN_false_of_le_right hxy
  obtain ⟨ry, hry, hry0, hry1⟩ := triangular_cdf_val t hv y hdy
  obtain ⟨rx, hrx, hrx0, hrx1⟩ := triangular_cdf_val t hv x hdx
  by_cases hx : F.lt x t.min = true
  · rw [triangular_cdf_lt_min t x hx, hry]
    simp only [F.le_fin, decide_eq_true_eq]
    exact hry0
  · by_cases hy : F.le t.max y = true
    · rw [triangular_cdf_ge_max t hv y hy, hrx]
      simp only [F.le_fin, decide_eq_true_eq]
      exact hrx1
    · have hminn : t.min.isNaN = false := by rw [hmin]; rfl
      have hmaxn : t.max.isNaN = false := by rw [hmax]; rfl
      have hxf : F.lt x t.min = false := by simpa using hx
      have hax : F.le t.min x = true := F.le_of_not_lt hxn hminn hxf
      have hyf : F.le t.max y = false := by simpa using hy
      have hyb : F.lt y t.max = true := F.lt_of_not_le hmaxn hyn hyf
      rw [hmin] at hax
      rw [hmax] at hyb
      have hay : F.le (F.fin a) y = true := F.le_trans hax hxy
      obtain ⟨qy, hqy, hay2, hyb2⟩ : ∃ q, y = F.fin q ∧ a ≤ q ∧ q < b := by
        cases y <;> simp_all [F.le, F.lt]
      rw [hqy] at hxy
      obtain ⟨qx, hqx, hax2, hxy2⟩ : ∃ q, x = F.fin q ∧ a ≤ q ∧ q ≤ qy := by
        cases x <;> simp_all [F.le]
      have hxb2 : qx < b := lt_of_le_of_lt hxy2 hyb2
      rw [hqx, hqy]
      rcases lt_or_eq_of_le hac with hacx | haceq
      · rw [triangular_cdf_fin_eval t hmin hmax hmode hacx hcb qx hax2 hxb2]
        rw [triangular_cdf_fin_eval t hmin hmax hmode hacx hcb qy hay2 hyb2]
        simp only [F.le_fin, decide_eq_true_eq]
        by_cases hxc : qx ≤ c
        · by_cases hyc : qy ≤ c
          · rw [if_pos hxc, if_pos hyc]
            rw [div_le_div_iff_of_pos_right
              (mul_pos (by linarith) (by linarith))]
            nlinarith
          · rw [if_pos hxc, if_neg hyc]
            have hcyq : c < qy := not_le.mp hyc
            have hcb2 : c < b := lt_trans hcyq hyb2
            have key1 : (qx - a) * (qx - a) / ((b - a) * (c - a)) ≤
                (c - a) / (b - a) := by
              rw [div_le_div_iff (mul_pos (by linarith) (by linarith))
                (by linarith)]
              nlinarith [mul_nonneg (mul_nonneg
                (by linarith : (0 : ℚ) ≤ b - a)
                (by linarith : (0 : ℚ) ≤ c - qx))
                (by linarith : (0 : ℚ) ≤ c + qx - 2 * a)]
            have key2 : (b - qy) * (b - qy) / ((b - a) * (b - c)) ≤
                (b - c) / (b - a) := by
              rw [div_le_div_iff (mul_pos (by linarith) (by linarith))
                (by linarith)]
              nlinarith [mul_nonneg (mul_nonneg
                (by linarith : (0 : ℚ) ≤ b - a)
                (by linarith : (0 : ℚ) ≤ qy - c))
                (by linarith : (0 : ℚ) ≤ 2 * b - c - qy)]
            have hba : (b - a : ℚ) ≠ 0 := ne_of_gt (by linarith)
            have key3 : (c - a) / (b - a) + (b - c) / (b - a) = 1 := by
              rw [div_add_div_same]
              rw [show c - a + (b - c) = b - a by ring]
              exact div_self hba
            linarith
        · have hcxq : c < qx := not_le.mp hxc
          have hyc : ¬ qy ≤ c := fun hcon => hxc (le_trans hxy2 hcon)
          rw [if_neg hxc, if_neg hyc]
          have hcb2 : c < b := lt_trans hcxq hxb2
          have hsq : (b - qy) * (b - qy) ≤ (b - qx) * (b - qx) := by nlinarith
          have hD : (0 : ℚ) < (b - a) * (b - c) :=
            mul_pos (by linarith) (by linarith)
          have hdd := (div_le_div_iff_of_pos_right hD).mpr hsq
          linarith
      · have hmodeq : t.mode = t.min := by rw [hmode, hmin, ← haceq]
        have hxne : x ≠ t.min := hdx hmodeq
        have hqxa : a < qx := by
          rcases lt_or_eq_of_le hax2 with h | h
          · exact h
          · exact absurd (by rw [hqx, hmin, h]) hxne
        have hqya : a < qy := lt_of_lt_of_le hqxa hxy2
        have hmode2 : t.mode = F.fin a := by rw [hmode, haceq]
        rw [triangular_cdf_fin_eval_deg t hmin hmax hmode2 qx hqxa
          (le_of_lt hxb2)]
        rw [triangular_cdf_fin_eval_deg t hmin hmax hmode2 qy hqya
          (le_of_lt hyb2)]
        simp only [F.le_fin, decide_eq_true_eq]
        have hsq : (b - qy) * (b - qy) ≤ (b - qx) * (b - qx) := by nlinarith
        have hD : (0 : ℚ) < (b - a) * (b - a) :=
          mul_pos (by linarith) (by linarith)
        have hdd := (div_le_div_iff_of_pos_right hD).mpr hsq
        linarith

theorem beta_cdf_range (S : SpecialFns) (β : Beta) (hv : Beta.valid β)
    (hB : BetaRegBounded S β) (x : F) (hx : x.isNaN = false) :
    F.le (F.fin 0) (Beta.cdf S β x) = true ∧
      F.le (Beta.cdf S β x) (F.fin 1) = true := by
  by_cases hx0 : F.lt x (F.fin 0) = true
  · have hc : Beta.cdf S β x = F.fin 0 := by
      unfold Beta.cdf
      rw [hx0]
      rfl
    rw [hc]
    exact ⟨by decide, by decide⟩
  · have hx0f : F.lt x (F.fin 0) = false := by simpa using hx0
    by_cases hx1 : F.le (F.fin 1) x = true
    · have hc : Beta.cdf S β x = F.fin 1 := by
        unfold Beta.cdf
        rw [hx0f, hx1]
        rfl
      rw [hc]
      exact ⟨by decide, by decide⟩
    · have hx1f : F.le (F.fin 1) x = false := by simpa using hx1
      have h0x : F.le (F.fin 0) x = true := F.le_of_not_lt hx rfl hx0f
      have hxlt1 : F.lt x (F.fin 1) = true := F.lt_of_not_le rfl hx hx1f
      unfold Beta.cdf
      rw [hx0f, hx1f]
      simp only [Bool.false_eq_true, if_false]
      by_cases hai : β.shape_a.isInfinite = true
      · by_cases hbi : β.shape_b.isInfinite = true
        · rw [hai, hbi]
          simp only [Bool.and_self, if_true]
          by_cases hxh : F.lt x (F.fin (1 / 2)) = true
          · rw [hxh]
            exact ⟨by decide, by decide⟩
          · rw [show F.lt x (F.fin (1 / 2)) = false by simpa using hxh]
            exact ⟨by decide, by decide⟩
        · rw [hai, show β.shape_b.isInfinite = false by simpa using hbi]
          simp only [Bool.and_false, Bool.false_eq_true, if_false,
            eq_self_iff_true, if_true]
          rw [hxlt1]
          exact ⟨by decide, by decide⟩
      · rw [show β.shape_a.isInfinite = false by simpa using hai]
        simp only [Bool.false_and, Bool.false_eq_true, if_false]
        by_cases hbi : β.shape_b.isInfinite = true
        · rw [hbi]
          simp only [eq_self_iff_true, if_true]
          exact ⟨by decide, by decide⟩
        · rw [show β.shape_b.isInfinite = false by simpa using hbi]
          simp only [Bool.false_eq_true, if_false]
          by_cases huni :
              (ulpsEq β.shape_a (F.fin 1) && ulpsEq β.shape_b (F.fin 1)) = true
          · rw [huni]
            simp only [if_true]
            exact ⟨h0x, F.le_of_lt hxlt1⟩
          · rw [show (ulpsEq β.shape_a (F.fin 1) &&
                ulpsEq β.shape_b (F.fin 1)) = false by simpa using huni]
            simp only [Bool.false_eq_true, if_false]
            exact hB x h0x hxlt1

theorem beta_cdf_mono (S : SpecialFns) (β : Beta) (hv : Beta.valid β)
    (hB : BetaRegBounded S β) (hM : BetaRegMonotone S β) (x y : F)
    (hxy : F.le x y = true) :
    F.le (Beta.cdf S β x) (Beta.cdf S β y) = true := by
  have hxn := F.isNaN_false_of_le_left hxy
  have hyn := F.isNaN_false_of_le_right hxy
  by_cases hy1 : F.le (F.fin 1) y = true
  · have hy0f : F.lt y (F.fin 0) = false :=
      F.not_lt_of_le (F.le_trans (by decide) hy1)
    have hcy : Beta.cdf S β y = F.fin 1 := by
      unfold Beta.cdf
      rw [hy0f, hy1]
      rfl
    rw [hcy]
    exact (beta_cdf_range S β hv hB x hxn).2
  · by_cases hx0 : F.lt x (F.fin 0) = true
    · have hcx : Beta.cdf S β x = F.fin 0 := by
        unfold Beta.cdf
        rw [hx0]
        rfl
      rw [hcx]
      exact (beta_cdf_range S β hv hB y hyn).1
    · have hx0f : F.lt x (F.fin 0) = false := by simpa using hx0
      have hy1f : F.le (F.fin 1) y = false := by simpa using hy1
      have h0x : F.le (F.fin 0) x = true := F.le_of_not_lt hxn rfl hx0f
      have h0y : F.le (F.fin 0) y = true := F.le_trans h0x hxy
      have hy0f : F.lt y (F.fin 0) = false := F.not_lt_of_le h0y
      have hylt : F.lt y (F.fin 1) = true := F.lt_of_not_le rfl hyn hy1f
      have hxlt : F.lt x (F.fin 1) = true := F.lt_of_le_of_lt hxy hylt
      have hx1f : F.le (F.fin 1) x = false := F.not_le_of_lt hxlt
      unfold Beta.cdf
      rw [hx0f, hy0f, hx1f, hy1f]
      simp only [Bool.false_eq_true, if_false]
      by_cases hai : β.shape_a.isInfinite = true
      · by_cases hbi : β.shape_b.isInfinite = true
        · rw [hai, hbi]
          simp only [Bool.and_self, if_true]
          by_cases hxh : F.lt x (F.fin (1 / 2)) = true
          · rw [hxh]
            simp only [if_true]
            split <;> decide
          · have hxh2 : F.lt x (F.fin (1 / 2)) = false := by simpa using hxh
            have hyh : F.lt y (F.fin (1 / 2)) = false := by
              by_contra hcon
              have hcon2 : F.lt y (F.fin (1 / 2)) = true := by simpa using hcon
              have hcon3 := F.lt_of_le_of_lt hxy hcon2
              rw [hxh2] at hcon3
              cases hcon3
            rw [hxh2, hyh]
            decide
        · have hbi2 : β.shape_b.isInfinite = false := by simpa using hbi
          rw [hai, hbi2]
          simp only [Bool.and_false, Bool.false_eq_true, if_false,
            eq_self_iff_true, if_true]
          rw [hxlt, hylt]
          decide
      · have hai2 : β.shape_a.isInfinite = false := by simpa using hai
        rw [hai2]
        simp only [Bool.false_and, Bool.false_eq_true, if_false]
        by_cases hbi : β.shape_b.isInfinite = true
        · rw [hbi]
          simp only [eq_self_iff_true, if_true]
          decide
        · have hbi2 : β.shape_b.isInfinite = false := by simpa using hbi
          rw [hbi2]
          simp only [Bool.false_eq_true, if_false]
          by_cases huni :
              (ulpsEq β.shape_a (F.fin 1) && ulpsEq β.shape_b (F.fin 1)) = true
          · rw [huni]
            simp only [if_true]
            exact hxy
          · have huni2 :
                (ulpsEq β.shape_a (F.fin 1) && ulpsEq β.shape_b (F.fin 1))
                  = false := by simpa using huni
            rw [huni2]
            simp only [Bool.false_eq_true, if_false]
            exact hM x y h0x hxy hylt

/-- C5 counterexample: `Triangular::new(0, 2, 0)` is accepted, but
`cdf(min) = (0-0)²/((2-0)·(0-0)) = 0/0 = NaN`, which is neither `0` nor a
boundary step value, and the NaN breaks monotonicity: `cdf(0) ≤ cdf(1)` is
false under the IEEE comparison. -/
theorem cdf_contract_counterexample :
    Triangular.valid ⟨F.fin 0, F.fin 2, F.fin 0⟩ ∧
    (Triangular.cdf ⟨F.fin 0, F.fin 2, F.fin 0⟩ (F.fin 0)).isNaN = true ∧
    F.le (Triangular.cdf ⟨F.fin 0, F.fin 2, F.fin 0⟩ (F.fin 0))
      (Triangular.cdf ⟨F.fin 0, F.fin 2, F.fin 0⟩ (F.fin 1)) = false := by
  have h : Triangular.cdf ⟨F.fin 0, F.fin 2, F.fin 0⟩ (F.fin 0) = F.nan := by
    unfold Triangular.cdf Triangular.cdfLow
    norm_num [F.lt, F.le, F.mul, F.sub, F.neg, F.add, F.div]
  refine ⟨by decide, by rw [h]; rfl, by rw [h]; exact F.nan_le _⟩

/-- C5 amended: the cumulative distribution is total and clamped — `0`
strictly below the lower bound, `1` at or above the upper bound — and at the
lower bound itself it is `0` or the boundary step value: `cdf(min) = 0` for
every valid `Triangular` with `min < mode`, and `cdf(0)` is `0` or `1` (the
`shape_b`-infinite step) for every valid `Beta` whose collaborator sends
`beta_reg(a, b, 0)` to `0`.  It is non-decreasing for every valid `Beta`
(given a bounded, monotone regularized-incomplete-beta collaborator) and for
every valid `Triangular` at every comparison that avoids the single point
`x = min` of a `mode = min` distribution; the two quadratic pieces of the
`Triangular` cdf agree at the breakpoint `mode` whenever `min < mode < max`.
For `Triangular` with `mode = min` (the counterexample), `cdf(min)` is NaN,
which is why that one point is excluded. -/
theorem cdf_clamped_and_monotone (S : SpecialFns) :
    (∀ β : Beta, Beta.valid β → BetaRegBounded S β → BetaRegMonotone S β →
      (∀ x : F, F.lt x (F.fin 0) = true → Beta.cdf S β x = F.fin 0) ∧
      (∀ x : F, F.le (F.fin 1) x = true → Beta.cdf S β x = F.fin 1) ∧
      (S.beta_reg β.shape_a β.shape_b (F.fin 0) = F.fin 0 →
        Beta.cdf S β (F.fin 0) = F.fin 0 ∨ Beta.cdf S β (F.fin 0) = F.fin 1) ∧
      (∀ x y : F, F.le x y = true →
        F.le (Beta.cdf S β x) (Beta.cdf S β y) = true)) ∧
    (∀ t : Triangular, Triangular.valid t →
      (∀ x : F, F.lt x t.min = true → Triangular.cdf t x = F.fin 0) ∧
      (∀ x : F, F.le t.max x = true → Triangular.cdf t x = F.fin 1) ∧
      (F.lt t.min t.mode = true → Triangular.cdf t t.min = F.fin 0) ∧
      (∀ x y : F, F.le x y = true → (t.mode = t.min → x ≠ t.min) →
        (t.mode = t.min → y ≠ t.min) →
        F.le (Triangular.cdf t x) (Triangular.cdf t y) = true) ∧
      (F.lt t.min t.mode = true → F.lt t.mode t.max = true →
        Triangular.cdfLow t t.mode = Triangular.cdfHigh t t.mode) ∧
      (t.mode = t.min → Triangular.cdf t t.min = F.nan)) := by
  constructor
  · intro β hv hB hM
    refine ⟨?_, ?_, ?_, beta_cdf_mono S β hv hB hM⟩
    · intro x hx
      unfold Beta.cdf
      rw [hx]
      rfl
    · intro x hx
      have h0 : F.lt x (F.fin 0) = false :=
        F.not_lt_of_le (F.le_trans (by decide) hx)
      unfold Beta.cdf
      rw [h0, hx]
      rfl
    · intro hz
      have h0 : F.lt (F.fin 0) (F.fin 0) = false := by decide
      have h1 : F.le (F.fin 1) (F.fin 0) = false := by decide
      unfold Beta.cdf
      rw [h0, h1]
      simp only [Bool.false_eq_true, if_false]
      by_cases hai : β.shape_a.isInfinite = true
      · by_cases hbi : β.shape_b.isInfinite = true
        · left
          rw [hai, hbi]
          simp only [Bool.and_self, if_true]
          rw [show F.lt (F.fin 0) (F.fin (1 / 2)) = true from by
            norm_num [F.lt]]
          rfl
        · left
          rw [hai, show β.shape_b.isInfinite = false from by simpa using hbi]
          simp only [Bool.and_false, Bool.false_eq_true, if_false,
            eq_self_iff_true, if_true]
          rw [show F.lt (F.fin 0) (F.fin 1) = true from by decide]
          rfl
      · rw [show β.shape_a.isInfinite = false from by simpa using hai]
        simp only [Bool.false_and, Bool.false_eq_true, if_false]
        by_cases hbi : β.shape_b.isInfinite = true
        · right
          rw [hbi]
          simp only [eq_self_iff_true, if_true]
        · left
          rw [show β.shape_b.isInfinite = false from by simpa using hbi]
          simp only [Bool.false_eq_true, if_false]
          by_cases huni :
              (ulpsEq β.shape_a (F.fin 1) && ulpsEq β.shape_b (F.fin 1)) = true
          · rw [huni]
            simp only [eq_self_iff_true, if_true]
          · rw [show (ulpsEq β.shape_a (F.fin 1) &&
                ulpsEq β.shape_b (F.fin 1)) = false from by simpa using huni]
            simp only [Bool.false_eq_true, if_false]
            exact hz
  · intro t hv
    obtain ⟨a, b, c, hmin, hmax, hmode, hac, hcb, hab⟩ :=
      triangular_valid_cases hv
    refine ⟨triangular_cdf_lt_min t, triangular_cdf_ge_max t hv,
      triangular_cdf_at_min t hv, triangular_cdf_mono t hv, ?_, ?_⟩
    · intro h1 h2
      rw [hmin, hmode] at h1
      rw [hmode, hmax] at h2
      have hacx : a < c := by simpa [F.lt] using h1
      have hcbx : c < b := by simpa [F.lt] using h2
      have hba : (b - a : ℚ) ≠ 0 := ne_of_gt (by linarith)
      have hca : (c - a : ℚ) ≠ 0 := ne_of_gt (by linarith)
      have hbc : (b - c : ℚ) ≠ 0 := ne_of_gt (by linarith)
      unfold Triangular.cdfLow Triangular.cdfHigh
      rw [hmin, hmax, hmode]
      simp only [F.sub_fin, F.mul_fin]
      rw [F.div_fin_of_ne _ (mul_ne_zero hba hca)]
      rw [F.div_fin_of_ne _ (mul_ne_zero hba hbc)]
      rw [F.sub_fin]
      congr 1
      field_simp
      ring
    · intro h
      have hmo : t.mode = F.fin a := by rw [h, hmin]
      unfold Triangular.cdf Triangular.cdfLow
      rw [hmin, hmax, hmo]
      norm_num [F.lt, F.le, F.sub, F.neg, F.add, F.mul, F.div]

/-- C5 witness: concrete clamping, lower-endpoint, monotonicity and
breakpoint-continuity evaluations for `Beta(9, 1)` (with the collaborator
`Sone`, whose `beta_reg` sends every input to `0`) and `Triangular(0, 1, 0.5)`,
plus a monotone comparison away from the excluded point for the degenerate
`Triangular(0, 1, 0)`. -/
theorem cdf_clamped_and_monotone_witness :
    Beta.cdf Sone ⟨F.fin 9, F.fin 1⟩ (F.fin (-1)) = F.fin 0 ∧
    Beta.cdf Sone ⟨F.fin 9, F.fin 1⟩ (F.fin 2) = F.fin 1 ∧
    (Beta.cdf Sone ⟨F.fin 9, F.fin 1⟩ (F.fin 0) = F.fin 0 ∨
      Beta.cdf Sone ⟨F.fin 9, F.fin 1⟩ (F.fin 0) = F.fin 1) ∧
    F.le (Beta.cdf Sone ⟨F.fin 9, F.fin 1⟩ (F.fin (1 / 4)))
      (Beta.cdf Sone ⟨F.fin 9, F.fin 1⟩ (F.fin (1 / 2))) = true ∧
    Triangular.cdf ⟨F.fin 0, F.fin 1, F.fin (1 / 2)⟩ (F.fin 2) = F.fin 1 ∧
    Triangular.cdf ⟨F.fin 0, F.fin 1, F.fin (1 / 2)⟩ (F.fin 0) = F.fin 0 ∧
    F.le (Triangular.cdf ⟨F.fin 0, F.fin 1, F.fin (1 / 2)⟩ (F.fin (1 / 4)))
      (Triangular.cdf ⟨F.fin 0, F.fin 1, F.fin (1 / 2)⟩ (F.fin (3 / 4)))
      = true ∧
    F.le (Triangular.cdf ⟨F.fin 0, F.fin 1, F.fin 0⟩ (F.fin (1 / 4)))
      (Triangular.cdf ⟨F.fin 0, F.fin 1, F.fin 0⟩ (F.fin (1 / 2))) = true ∧
    Triangular.cdfLow ⟨F.fin 0, F.fin 1, F.fin (1 / 2)⟩ (F.fin (1 / 2)) =
      Triangular.cdfHigh ⟨F.fin 0, F.fin 1, F.fin (1 / 2)⟩ (F.fin (1 / 2)) := by
  have hB : BetaRegBounded Sone ⟨F.fin 9, F.fin 1⟩ := by
    intro y h1 h2
    exact ⟨rfl, rfl⟩
  have hM : BetaRegMonotone Sone ⟨F.fin 9, F.fin 1⟩ := by
    intro y z h1 h2 h3
    rfl
  have h := cdf_clamped_and_monotone Sone
  have hbv : Beta.valid ⟨F.fin 9, F.fin 1⟩ := by decide
  have htv : Triangular.valid ⟨F.fin 0, F.fin 1, F.fin (1 / 2)⟩ := by
    norm_num [Triangular.valid, Triangular.new, F.isNaN, F.isInfinite, F.lt,
      F.beq]
  have htv2 : Triangular.valid ⟨F.fin 0, F.fin 1, F.fin 0⟩ := by decide
  have hbeta := h.1 ⟨F.fin 9, F.fin 1⟩ hbv hB hM
  have htri := h.2 ⟨F.fin 0, F.fin 1, F.fin (1 / 2)⟩ htv
  have htri2 := h.2 ⟨F.fin 0, F.fin 1, F.fin 0⟩ htv2
  refine ⟨hbeta.1 _ (by norm_num [F.lt]), hbeta.2.1 _ (by decide),
    hbeta.2.2.1 rfl,
    hbeta.2.2.2 _ _ (by norm_num [F.le]),
    htri.2.1 _ (by norm_num [F.le]),
    htri.2.2.1 (by norm_num [F.lt]),
    htri.2.2.2.1 _ _ (by norm_num [F.le]) ?_ ?_,
    htri2.2.2.2.1 _ _ (by norm_num [F.le]) ?_ ?_,
    htri.2.2.2.2.1 (by norm_num [F.lt]) (by norm_num [F.lt])⟩
  · intro hcon
    injection hcon with h2
    norm_num at h2
  · intro hcon
    injection hcon with h2
    norm_num at h2
  · intro _ hcon
    injection hcon with h2
    norm_num at h2
  · intro _ hcon
    injection hcon with h2
    norm_num at h2

/-- C2 counterexample: for the valid `Beta(2, 1/8)` and the in-open-support
input `x = 1 - 2⁻⁵³` (one half-ulp below `1`, so `ulps_eq!(x, 1)` holds),
the general-case `ln_pdf` short-circuits its upper power term to `-∞`, making
`exp(ln_pdf(x)) = 0`, while the direct-formula `pdf` evaluates the power
`(1-x)^(1/8-1) = (2⁻⁵³)^(-7/8)` to a huge positive value (about `2⁴⁶`; the
modelled collaborator returns `2⁵²`): the two disagree by fourteen orders of
magnitude, far beyond "the precision of the exponential map". -/
theorem pdf_exp_lnpdf_counterexample :
    Beta.valid ⟨F.fin 2, F.fin (1 / 8)⟩ ∧
    F.lt (F.fin 0) (F.fin (1 - 1 / 2 ^ 53)) = true ∧
    F.lt (F.fin (1 - 1 / 2 ^ 53)) (F.fin 1) = true ∧
    Beta.pdf SC2 ⟨F.fin 2, F.fin (1 / 8)⟩ (F.fin (1 - 1 / 2 ^ 53)) =
      F.fin ((1 - 1 / 2 ^ 53) * 2 ^ 52) ∧
    SC2.exp (Beta.ln_pdf SC2 ⟨F.fin 2, F.fin (1 / 8)⟩
      (F.fin (1 - 1 / 2 ^ 53))) = F.fin 0 ∧
    Beta.pdf SC2 ⟨F.fin 2, F.fin (1 / 8)⟩ (F.fin (1 - 1 / 2 ^ 53)) ≠
      SC2.exp (Beta.ln_pdf SC2 ⟨F.fin 2, F.fin (1 / 8)⟩
        (F.fin (1 - 1 / 2 ^ 53))) := by
  have hlp : Beta.ln_pdf SC2 ⟨F.fin 2, F.fin (1 / 8)⟩
      (F.fin (1 - 1 / 2 ^ 53)) = F.ninf := by
    unfold Beta.ln_pdf Beta.lnNorm Beta.lnLowTerm Beta.lnHighTerm
    norm_num [SC2, ulpsEq, is_zero, nearTol, F.lt, F.le, F.isInfinite,
      F.sub, F.neg, F.add, F.mul, abs_le]
  have hpdf : Beta.pdf SC2 ⟨F.fin 2, F.fin (1 / 8)⟩
      (F.fin (1 - 1 / 2 ^ 53)) = F.fin ((1 - 1 / 2 ^ 53) * 2 ^ 52) := by
    unfold Beta.pdf
    norm_num [SC2, ulpsEq, is_zero, nearTol, F.lt, F.le, F.isInfinite,
      F.sub, F.neg, F.add, F.mul, F.div, abs_le]
  refine ⟨?_, by norm_num [F.lt], by norm_num [F.lt], hpdf, ?_, ?_⟩
  · norm_num [Beta.valid, Beta.new, F.isNaN, F.le]
  · rw [hlp]
    rfl
  · rw [hpdf, hlp]
    show F.fin ((1 - 1 / 2 ^ 53) * 2 ^ 52) ≠ SC2.exp F.ninf
    rw [show SC2.exp F.ninf = F.fin 0 from rfl]
    simp only [ne_eq, F.fin.injEq]
    norm_num

/-- C2 amended: the density/log-density agreement `pdf(x) = exp(ln_pdf(x))`
holds structurally and exactly in the regimes where the code computes one
from the other — unconditionally in `Beta`'s above-threshold regime (shape
over `80`), by definition for `Triangular` (`ln_pdf = ln ∘ pdf`, with `pdf`
strictly positive on the open support, so it transports along any collaborator
satisfying `exp(ln y) = y` there), in `Beta`'s degenerate and uniform regimes
for any collaborator respecting `exp(-∞) = 0`, `exp(0) = 1`, `exp(+∞) = +∞`,
and in `Beta`'s general below-threshold regime for open-support inputs
outside the near-equality tolerance bands of the two boundaries, for any
collaborator satisfying the exponential identities at the points used.
Inside the tolerance bands the agreement genuinely fails (the
counterexample), so the open-support claim is restricted to exclude them. -/
theorem pdf_matches_exp_lnpdf :
    (∀ (S : SpecialFns) (β : Beta) (x : F), Beta.valid β →
      β.shape_a.isFinite = true → β.shape_b.isFinite = true →
      (ulpsEq β.shape_a (F.fin 1) && ulpsEq β.shape_b (F.fin 1)) = false →
      (F.lt (F.fin 80) β.shape_a || F.lt (F.fin 80) β.shape_b) = true →
      F.le (F.fin 0) x = true → F.le x (F.fin 1) = true →
      Beta.pdf S β x = S.exp (Beta.ln_pdf S β x)) ∧
    (∀ (S : SpecialFns) (t : Triangular) (x : F),
      Triangular.ln_pdf S t x = S.ln (Triangular.pdf t x)) ∧
    (∀ (S : SpecialFns) (t : Triangular) (x : F), Triangular.valid t →
      F.lt t.min x = true → F.lt x t.max = true →
      F.lt (F.fin 0) (Triangular.pdf t x) = true ∧
      (S.exp (S.ln (Triangular.pdf t x)) = Triangular.pdf t x →
        Triangular.pdf t x = S.exp (Triangular.ln_pdf S t x))) ∧
    (∀ (S : SpecialFns) (β : Beta) (x : F), Beta.valid β →
      S.exp (F.fin 0) = F.fin 1 → S.exp F.ninf = F.fin 0 →
      S.exp F.pinf = F.pinf →
      F.lt (F.fin 0) x = true → F.lt x (F.fin 1) = true →
      (β.shape_a.isInfinite = true ∨ β.shape_b.isInfinite = true ∨
        (ulpsEq β.shape_a (F.fin 1) && ulpsEq β.shape_b (F.fin 1)) = true) →
      Beta.pdf S β x = S.exp (Beta.ln_pdf S β x)) ∧
    (∀ (S : SpecialFns) (β : Beta) (x : F), Beta.valid β →
      β.shape_a.isFinite = true → β.shape_b.isFinite = true →
      (ulpsEq β.shape_a (F.fin 1) && ulpsEq β.shape_b (F.fin 1)) = false →
      (F.lt (F.fin 80) β.shape_a || F.lt (F.fin 80) β.shape_b) = false →
      F.le (F.fin 0) x = true → F.le x (F.fin 1) = true →
      is_zero x = false → ulpsEq x (F.fin 1) = false →
      S.exp (Beta.lnNorm S β) =
        F.div (S.gamma (F.add β.shape_a β.shape_b))
          (F.mul (S.gamma β.shape_a) (S.gamma β.shape_b)) →
      S.exp (F.mul (F.sub β.shape_a (F.fin 1)) (S.ln x)) =
        S.powf x (F.sub β.shape_a (F.fin 1)) →
      S.exp (F.mul (F.sub β.shape_b (F.fin 1)) (S.ln (F.sub (F.fin 1) x))) =
        S.powf (F.sub (F.fin 1) x) (F.sub β.shape_b (F.fin 1)) →
      S.exp (F.add (F.add (Beta.lnNorm S β) (Beta.lnLowTerm S β x))
          (Beta.lnHighTerm S β x)) =
        F.mul (F.mul (S.exp (Beta.lnNorm S β))
          (S.exp (Beta.lnLowTerm S β x))) (S.exp (Beta.lnHighTerm S β x)) →
      Beta.pdf S β x = S.exp (Beta.ln_pdf S β x)) := by
  refine ⟨?_, ?_, ?_, ?_, ?_⟩
  · intro S β x hv haf hbf huni h80 h0 h1
    have hai := F.isInfinite_eq_false_of_isFinite haf
    have hbi := F.isInfinite_eq_false_of_isFinite hbf
    have hg : (F.lt x (F.fin 0) || F.lt (F.fin 1) x) = false := by
      rw [F.not_lt_of_le h0, F.not_lt_of_le h1]
      rfl
    unfold Beta.pdf
    rw [hg, hai, hbi, huni, h80]
    rfl
  · intro S t x
    rfl
  · intro S t x hv hx1 hx2
    obtain ⟨a, b, c, hmin, hmax, hmode, hac, hcb, hab⟩ :=
      triangular_valid_cases hv
    rw [hmin] at hx1
    rw [hmax] at hx2
    obtain ⟨qx, hqx, haq, hqble⟩ := F.fin_of_lt_le hx1 (F.le_of_lt hx2)
    have hqb2 : qx < b := by
      rw [hqx] at hx2
      simpa [F.lt] using hx2
    have hpdf : ∃ r, Triangular.pdf t x = F.fin r ∧ 0 < r := by
      by_cases hcx : qx ≤ c
      · refine ⟨2 * (qx - a) / ((b - a) * (c - a)), ?_, ?_⟩
        · unfold Triangular.pdf
          have hcond : (F.le t.min x && F.le x t.mode) = true := by
            rw [hmin, hmode, hqx]
            simp only [F.le_fin, Bool.and_eq_true, decide_eq_true_eq]
            exact ⟨le_of_lt haq, hcx⟩
          rw [hcond]
          simp only [if_true]
          rw [hqx, hmin, hmax, hmode]
          simp only [F.sub_fin, F.mul_fin]
          rw [F.div_fin_of_ne _ (ne_of_gt
            (mul_pos (by linarith) (by linarith : (0 : ℚ) < c - a)))]
        · exact div_pos (by linarith)
            (mul_pos (by linarith) (by linarith))
      · have hcx2 : c < qx := not_le.mp hcx
        refine ⟨2 * (b - qx) / ((b - a) * (b - c)), ?_, ?_⟩
        · unfold Triangular.pdf
          have hcond1 : (F.le t.min x && F.le x t.mode) = false := by
            rw [hmode, hqx]
            simp only [F.le_fin, Bool.and_eq_false_iff,
              decide_eq_false_iff_not]
            right
            exact hcx
          have hcond2 : (F.lt t.mode x && F.le x t.max) = true := by
            rw [hmode, hmax, hqx]
            simp only [F.lt_fin, F.le_fin, Bool.and_eq_true,
              decide_eq_true_eq]
            exact ⟨hcx2, le_of_lt hqb2⟩
          rw [hcond1, hcond2]
          simp only [Bool.false_eq_true, if_false, if_true]
          rw [hqx, hmin, hmax, hmode]
          simp only [F.sub_fin, F.mul_fin]
          rw [F.div_fin_of_ne _ (ne_of_gt
            (mul_pos (by linarith) (by linarith : (0 : ℚ) < b - c)))]
        · exact div_pos (by linarith)
            (mul_pos (by linarith) (by linarith))
    obtain ⟨r, hr, hrpos⟩ := hpdf
    constructor
    · rw [hr]
      simpa [F.lt] using hrpos
    · intro hexp
      unfold Triangular.ln_pdf
      exact hexp.symm
  · intro S β x hv h0e hne hpe hx0 hx1 hcase
    have hg : (F.lt x (F.fin 0) || F.lt (F.fin 1) x) = false := by
      rw [F.not_lt_of_le (F.le_of_lt hx0), F.not_lt_of_le (F.le_of_lt hx1)]
      rfl
    unfold Beta.pdf Beta.ln_pdf
    rcases hcase with hai | hbi | huni
    · by_cases hbi : β.shape_b.isInfinite = true
      · rw [hg, hai, hbi]
        simp only [Bool.and_self, if_true]
        by_cases hc : ulpsEq x (F.fin (1 / 2)) = true
        · rw [hc]
          simp only [if_true]
          exact hpe.symm
        · rw [show ulpsEq x (F.fin (1 / 2)) = false by simpa using hc]
          simp only [Bool.false_eq_true, if_false]
          exact hne.symm
      · rw [hg, hai, show β.shape_b.isInfinite = false by simpa using hbi]
        simp only [Bool.and_false, Bool.false_eq_true, if_false,
          eq_self_iff_true, if_true]
        by_cases hc : ulpsEq x (F.fin 1) = true
        · rw [hc]
          simp only [if_true]
          exact hpe.symm
        · rw [show ulpsEq x (F.fin 1) = false by simpa using hc]
          simp only [Bool.false_eq_true, if_false]
          exact hne.symm
    · by_cases hai : β.shape_a.isInfinite = true
      · rw [hg, hai, hbi]
        simp only [Bool.and_self, if_true]
        by_cases hc : ulpsEq x (F.fin (1 / 2)) = true
        · rw [hc]
          simp only [if_true]
          exact hpe.symm
        · rw [show ulpsEq x (F.fin (1 / 2)) = false by simpa using hc]
          simp only [Bool.false_eq_true, if_false]
          exact hne.symm
      · rw [hg, show β.shape_a.isInfinite = false by simpa using hai, hbi]
        simp only [Bool.false_and, Bool.false_eq_true, if_false,
          eq_self_iff_true, if_true]
        by_cases hc : is_zero x = true
        · rw [hc]
          simp only [if_true]
          exact hpe.symm
        · rw [show is_zero x = false by simpa using hc]
          simp only [Bool.false_eq_true, if_false]
          exact hne.symm
    · have hai2 : β.shape_a.isInfinite = false := by
        obtain ⟨ha1, _⟩ := Bool.and_eq_true_iff.mp huni
        cases hA : β.shape_a <;> rw [hA] at ha1 <;>
          simp_all [ulpsEq, F.isInfinite]
      have hbi2 : β.shape_b.isInfinite = false := by
        obtain ⟨_, hb1⟩ := Bool.and_eq_true_iff.mp huni
        cases hB : β.shape_b <;> rw [hB] at hb1 <;>
          simp_all [ulpsEq, F.isInfinite]
      rw [hg, hai2, hbi2, huni]
      simp only [Bool.and_self, Bool.false_eq_true, if_false, if_true]
      exact h0e.symm
  · intro S β x hv haf hbf huni h80 h0 h1 hz hu hgamma hpow1 hpow2 hhom
    have hai := F.isInfinite_eq_false_of_isFinite haf
    have hbi := F.isInfinite_eq_false_of_isFinite hbf
    have hg : (F.lt x (F.fin 0) || F.lt (F.fin 1) x) = false := by
      rw [F.not_lt_of_le h0, F.not_lt_of_le h1]
      rfl
    have hbbt : Beta.lnLowTerm S β x =
        F.mul (F.sub β.shape_a (F.fin 1)) (S.ln x) := by
      unfold Beta.lnLowTerm
      rw [hz]
      simp only [Bool.and_false, Bool.false_eq_true, if_false]
    have hcct : Beta.lnHighTerm S β x =
        F.mul (F.sub β.shape_b (F.fin 1)) (S.ln (F.sub (F.fin 1) x)) := by
      unfold Beta.lnHighTerm
      rw [hu]
      simp only [Bool.and_false, Bool.false_eq_true, if_false]
    have hlp : Beta.ln_pdf S β x =
        F.add (F.add (Beta.lnNorm S β) (Beta.lnLowTerm S β x))
          (Beta.lnHighTerm S β x) := by
      unfold Beta.ln_pdf
      rw [hg, hai, hbi, huni]
      rfl
    unfold Beta.pdf
    rw [hg, hai, hbi, huni, h80]
    rw [hlp, hhom, hgamma, hbbt, hcct, hpow1, hpow2]
    rfl

/-- C2 witness: concrete instantiations of each amended clause — the
above-threshold `Beta(90, 2)`, the `Triangular(0, 1, 0.5)` definitional
identity, its positive open-support density with the exp-ln transport, the
degenerate `Beta(∞, ∞)` against the collaborator `Sexp`, and the general-case
`Beta(2, 2)` at the interior point `0.5` against `Sone`. -/
theorem pdf_matches_exp_lnpdf_witness :
    Beta.pdf Sone ⟨F.fin 90, F.fin 2⟩ (F.fin (1 / 2)) =
      Sone.exp (Beta.ln_pdf Sone ⟨F.fin 90, F.fin 2⟩ (F.fin (1 / 2))) ∧
    Triangular.ln_pdf Sone ⟨F.fin 0, F.fin 1, F.fin (1 / 2)⟩ (F.fin (1 / 4)) =
      Sone.ln (Triangular.pdf ⟨F.fin 0, F.fin 1, F.fin (1 / 2)⟩
        (F.fin (1 / 4))) ∧
    F.lt (F.fin 0)
      (Triangular.pdf ⟨F.fin 0, F.fin 1, F.fin (1 / 2)⟩ (F.fin (1 / 4)))
      = true ∧
    Triangular.pdf ⟨F.fin 0, F.fin 1, F.fin (1 / 2)⟩ (F.fin (1 / 4)) =
      Sone.exp (Triangular.ln_pdf Sone ⟨F.fin 0, F.fin 1, F.fin (1 / 2)⟩
        (F.fin (1 / 4))) ∧
    Beta.pdf Sexp ⟨F.pinf, F.pinf⟩ (F.fin (1 / 2)) =
      Sexp.exp (Beta.ln_pdf Sexp ⟨F.pinf, F.pinf⟩ (F.fin (1 / 2))) ∧
    Beta.pdf Sone ⟨F.fin 2, F.fin 2⟩ (F.fin (1 / 2)) =
      Sone.exp (Beta.ln_pdf Sone ⟨F.fin 2, F.fin 2⟩ (F.fin (1 / 2))) := by
  have h := pdf_matches_exp_lnpdf
  have htv : Triangular.valid ⟨F.fin 0, F.fin 1, F.fin (1 / 2)⟩ := by
    norm_num [Triangular.valid, Triangular.new, F.isNaN, F.isInfinite, F.lt,
      F.beq]
  refine ⟨?_, ?_, ?_, ?_, ?_, ?_⟩
  · exact h.1 Sone ⟨F.fin 90, F.fin 2⟩ _ (by decide) (by decide) (by decide)
      (by norm_num [ulpsEq, nearTol, abs_le]) (by decide)
      (by norm_num [F.le]) (by norm_num [F.le])
  · exact h.2.1 Sone _ _
  · exact (h.2.2.1 Sone ⟨F.fin 0, F.fin 1, F.fin (1 / 2)⟩ (F.fin (1 / 4))
      htv (by norm_num [F.lt]) (by norm_num [F.lt])).1
  · refine (h.2.2.1 Sone ⟨F.fin 0, F.fin 1, F.fin (1 / 2)⟩ (F.fin (1 / 4))
      htv (by norm_num [F.lt]) (by norm_num [F.lt])).2 ?_
    show F.fin 1 = Triangular.pdf _ _
    unfold Triangular.pdf
    norm_num [F.le, F.sub, F.neg, F.add, F.mul, F.div]
  · exact h.2.2.2.1 Sexp ⟨F.pinf, F.pinf⟩ _ (by decide) rfl rfl rfl
      (by norm_num [F.lt]) (by norm_num [F.lt]) (Or.inl rfl)
  · exact h.2.2.2.2 Sone ⟨F.fin 2, F.fin 2⟩ _ (by decide) (by decide)
      (by decide) (by norm_num [ulpsEq, nearTol, abs_le]) (by decide)
      (by norm_num [F.le]) (by norm_num [F.le])
      (by norm_num [is_zero, ulpsEq, nearTol, abs_le])
      (by norm_num [ulpsEq, nearTol, abs_le])
      (by norm_num [Sone, Beta.lnNorm, F.sub, F.neg, F.add, F.mul, F.div])
      rfl rfl
      (by norm_num [Sone, F.mul])
